import Mathlib

/-!
Verification of the cue mixing and crossfade engine of the shared_audio_core
repository, against its natural-language specification.

Shallow embedding conventions:
* C++ `float`/`double` sample and gain values are modelled as `ℚ` (exact
  arithmetic); C++ `int` is modelled as `ℤ`; C++ `size_t` loop counters and
  positions that the code keeps below their wrap-around point are modelled
  as `ℕ` (except where `size_t` wrap-around is semantically relevant, as in
  `LockFreeFIFO.size`, where the modulo-`2^64` arithmetic is made explicit).
* An output `AudioBuffer` (`std::vector<std::vector<float>>`) is modelled as
  a total function `channel → sampleIndex → ℚ`; the channel count of the
  vector is passed explicitly where the C++ reads `outputs.size()`.
* `std::cout` logging, `performance_metrics_` telemetry and the PIMPL
  plumbing are omitted: no verified property mentions them.
* Member functions keep their C++ names (trailing underscores of fields
  dropped, lowerCamelCase for fields).
-/

namespace SharedAudio

/-- `std::clamp(v, lo, hi)`: `v < lo ? lo : (hi < v ? hi : v)`. -/
def std_clamp (v lo hi : ℚ) : ℚ :=
  if v < lo then lo else if hi < v then hi else v

/-- `static_cast<int>(q)` on a C++ floating value: truncation toward zero. -/
def c_int_trunc (q : ℚ) : ℤ :=
  if 0 ≤ q then ⌊q⌋ else ⌈q⌉

/-! ## Lock-free command FIFO (src/unnamed/part_003)

`LockFreeFIFO<T, Size>` with `Size = 256` (the `AudioMessageQueue`
instantiation used for audio-thread commands).  The atomics' memory
orderings have no sequential content; the sequential state is the buffer
array plus the two indices.  All stored index values are masked with
`Size - 1`, so `writePos` and `readPos` are always `< 256`. -/

/-- The `Size` template argument of the `AudioMessageQueue` instantiation. -/
def fifoSize : ℕ := 256

structure LockFreeFIFO (α : Type) where
  buffer : ℕ → α
  writePos : ℕ
  readPos : ℕ

/-- The constructor `LockFreeFIFO() : write_pos_(0), read_pos_(0)`;
the array contents start unspecified, modelled by an explicit fill value. -/
def LockFreeFIFO.init (a0 : α) : LockFreeFIFO α :=
  ⟨fun _ => a0, 0, 0⟩

/-- `push`: fails (returns false) when `next_write == read_pos_`, otherwise
stores the item at `current_write` and publishes the new write index. -/
def LockFreeFIFO.push (q : LockFreeFIFO α) (item : α) : Bool × LockFreeFIFO α :=
  let currentWrite := q.writePos
  let nextWrite := (currentWrite + 1) &&& (fifoSize - 1)
  if nextWrite = q.readPos then
    (false, q)
  else
    (true, { q with
      buffer := fun i => if i = currentWrite then item else q.buffer i,
      writePos := nextWrite })

/-- `pop(T& item)`: fails (returns false, `item` untouched) when the queue is
empty; on success the popped element is returned as `some`. -/
def LockFreeFIFO.pop (q : LockFreeFIFO α) : Option α × LockFreeFIFO α :=
  let currentRead := q.readPos
  if currentRead = q.writePos then
    (none, q)
  else
    (some (q.buffer currentRead),
     { q with readPos := (currentRead + 1) &&& (fifoSize - 1) })

/-- `size()`: `(write - read) & (Size - 1)` computed in `size_t` arithmetic,
whose subtraction wraps modulo `2 ^ 64`. -/
def LockFreeFIFO.size (q : LockFreeFIFO α) : ℕ :=
  ((q.writePos + 2 ^ 64 - q.readPos) % 2 ^ 64) &&& (fifoSize - 1)

/-- The results of a sequence of `push` calls with no intervening `pop`:
one boolean per attempted push, in order. -/
def pushResults (q : LockFreeFIFO α) : List α → List Bool
  | [] => []
  | c :: cs =>
    let r := q.push c
    r.1 :: pushResults r.2 cs

/-- The queue state after a sequence of `push` calls with no intervening
`pop`. -/
def pushAll (q : LockFreeFIFO α) : List α → LockFreeFIFO α
  | [] => q
  | c :: cs => pushAll (q.push c).2 cs

/-! ## AudioCue (src/src/show_control/cue_audio_manager.cpp, lines 10-188) -/

inductive CueState where
  | STOPPED
  | PLAYING
  | PAUSED
  | FADING_IN
  | FADING_OUT
deriving DecidableEq, Repr

/-- One loaded audio cue.  `audioData ch i` is `audio_data_[ch][i]`;
`numChannels` is `audio_data_.size()`. -/
structure AudioCue where
  cueId : String
  filePath : String
  state : CueState
  audioData : ℕ → ℕ → ℚ
  numChannels : ℕ
  currentPosition : ℕ
  durationSamples : ℕ
  volume : ℚ
  pan : ℚ
  targetVolume : ℚ
  fadeSamplesRemaining : ℤ
  fadeSamplesTotal : ℤ
  isLooping : Bool
  sampleRate : ℤ

/-- The `AudioCue(id, file_path)` constructor (before `load_audio_file`):
`duration_samples_` is left uninitialised in the C++ and modelled as 0. -/
def mkAudioCue (id path : String) : AudioCue :=
  { cueId := id
    filePath := path
    state := .STOPPED
    audioData := fun _ _ => 0
    numChannels := 0
    currentPosition := 0
    durationSamples := 0
    volume := 1
    pan := 0
    targetVolume := 1
    fadeSamplesRemaining := 0
    fadeSamplesTotal := 0
    isLooping := false
    sampleRate := 48000 }

def AudioCue.start (c : AudioCue) : AudioCue :=
  { c with state := .PLAYING, currentPosition := 0 }

def AudioCue.stop (c : AudioCue) : AudioCue :=
  { c with state := .STOPPED, currentPosition := 0 }

def AudioCue.pause (c : AudioCue) : AudioCue :=
  if c.state = .PLAYING then { c with state := .PAUSED } else c

def AudioCue.resume (c : AudioCue) : AudioCue :=
  if c.state = .PAUSED then { c with state := .PLAYING } else c

def AudioCue.set_volume (c : AudioCue) (v : ℚ) : AudioCue :=
  { c with volume := std_clamp v 0 1 }

def AudioCue.set_pan (c : AudioCue) (p : ℚ) : AudioCue :=
  { c with pan := std_clamp p (-1) 1 }

def AudioCue.fade_in (c : AudioCue) (durationSeconds : ℚ) (sampleRate : ℤ) : AudioCue :=
  { c with
    targetVolume := c.volume
    volume := 0
    fadeSamplesTotal := c_int_trunc (durationSeconds * sampleRate)
    fadeSamplesRemaining := c_int_trunc (durationSeconds * sampleRate)
    state := .FADING_IN }

def AudioCue.fade_out (c : AudioCue) (durationSeconds : ℚ) (sampleRate : ℤ) : AudioCue :=
  { c with
    targetVolume := 0
    fadeSamplesTotal := c_int_trunc (durationSeconds * sampleRate)
    fadeSamplesRemaining := c_int_trunc (durationSeconds * sampleRate)
    state := .FADING_OUT }

/-- An output buffer: channel index → sample index → sample value. -/
def AudioBuffer : Type := ℕ → ℕ → ℚ

def zeroBuffer : AudioBuffer := fun _ _ => 0

/-- The tail of one iteration of the `AudioCue::process_audio` sample loop:
mixing into the output and advancing the cursor.  The boolean result is the
loop's break flag (always false here). -/
def cueMix (channels sample : ℕ) (c : AudioCue) (currentVolume : ℚ)
    (buf : AudioBuffer) : AudioCue × AudioBuffer × Bool :=
  let leftGain := currentVolume * (1 - max 0 c.pan)
  let rightGain := currentVolume * (1 + min 0 c.pan)
  let buf' : AudioBuffer := fun ch i =>
    if ch < channels ∧ i = sample then
      buf ch i + c.audioData ch c.currentPosition *
        (if ch = 0 then leftGain else rightGain)
    else buf ch i
  ({ c with currentPosition := c.currentPosition + 1 }, buf', false)

/-- The fade-handling part of one iteration of the sample loop
(`// Handle fading` through the mix), mirroring the C++ statement order:
the instantaneous volume is computed from the pre-decrement
`fade_samples_remaining_`, then the counter is decremented, and on reaching
zero the volume snaps to the target and the state transitions — breaking
out of the loop (before mixing) exactly when a fade-out to zero completes. -/
def cueFadeMix (channels sample : ℕ) (c : AudioCue) (buf : AudioBuffer) :
    AudioCue × AudioBuffer × Bool :=
  if 0 < c.fadeSamplesRemaining then
    let fadeProgress : ℚ :=
      1 - (c.fadeSamplesRemaining : ℚ) / (c.fadeSamplesTotal : ℚ)
    let currentVolume : ℚ :=
      if c.state = .FADING_IN then c.targetVolume * fadeProgress
      else if c.state = .FADING_OUT then c.volume * (1 - fadeProgress)
      else c.volume
    let rem := c.fadeSamplesRemaining - 1
    if rem = 0 then
      if c.state = .FADING_OUT ∧ c.targetVolume = 0 then
        ({ c with
            fadeSamplesRemaining := rem
            volume := c.targetVolume
            state := .STOPPED },
         buf, true)
      else
        cueMix channels sample
          { c with
            fadeSamplesRemaining := rem
            volume := c.targetVolume
            state := .PLAYING } currentVolume buf
    else
      cueMix channels sample { c with fadeSamplesRemaining := rem }
        currentVolume buf
  else
    cueMix channels sample c c.volume buf

/-- One full iteration of the sample loop, starting with the
end-of-data check (loop-wrap or stop-and-break). -/
def cueLoopBody (channels sample : ℕ) (c : AudioCue) (buf : AudioBuffer) :
    AudioCue × AudioBuffer × Bool :=
  if c.durationSamples ≤ c.currentPosition then
    if c.isLooping then
      cueFadeMix channels sample { c with currentPosition := 0 } buf
    else
      ({ c with state := .STOPPED }, buf, true)
  else
    cueFadeMix channels sample c buf

/-- The `for (sample = 0; sample < num_samples; ++sample)` loop;
a true break flag stops the remaining iterations. -/
def cueLoop (channels : ℕ) : ℕ → ℕ → AudioCue → AudioBuffer → AudioCue × AudioBuffer
  | _, 0, c, buf => (c, buf)
  | sample, n + 1, c, buf =>
    match cueLoopBody channels sample c buf with
    | (c', buf', true) => (c', buf')
    | (c', buf', false) => cueLoop channels (sample + 1) n c' buf'

/-- `AudioCue::process_audio(outputs, num_samples)`.  `numOutputChannels` is
`outputs.size()`; the early return fires when the cue is stopped or holds no
audio data. -/
def AudioCue.process_audio (c : AudioCue) (numOutputChannels : ℕ)
    (buf : AudioBuffer) (numSamples : ℕ) : AudioCue × AudioBuffer :=
  if c.state = .STOPPED ∨ c.numChannels = 0 then (c, buf)
  else cueLoop (min numOutputChannels c.numChannels) 0 numSamples c buf

/-! ## CueAudioManager (src/src/show_control/cue_audio_manager.cpp, lines 190-399)

The C++ keeps the cues in a `std::map<std::string, unique_ptr<AudioCue>>` and
iterates it in key order.  The manager is modelled over the list of cues in
that iteration order; render-order independence is proved, not assumed. -/

structure CueAudioManager where
  initialized : Bool
  sampleRate : ℤ
  bufferSize : ℤ
  masterVolume : ℚ
  cues : List AudioCue

/-- `Impl() : initialized_(false), sample_rate_(48000), buffer_size_(256),
master_volume_(1.0f)`. -/
def mkCueAudioManager : CueAudioManager :=
  { initialized := false
    sampleRate := 48000
    bufferSize := 256
    masterVolume := 1
    cues := [] }

/-- `set_master_volume`: clamps to [0, 1]. -/
def CueAudioManager.set_master_volume (m : CueAudioManager) (v : ℚ) :
    CueAudioManager :=
  { m with masterVolume := std_clamp v 0 1 }

/-- The `for (auto& [cue_id, cue] : cues_) cue->process_audio(outputs, ...)`
loop of `CueAudioManager::Impl::process_audio`: each cue renders into the
shared buffer, threading its own state. -/
def processCues (numCh n : ℕ) : List AudioCue → AudioBuffer →
    List AudioCue × AudioBuffer
  | [], buf => ([], buf)
  | c :: cs, buf =>
    let r := c.process_audio numCh buf n
    let r2 := processCues numCh n cs r.2
    (r.1 :: r2.1, r2.2)

/-- `CueAudioManager::Impl::process_audio`: zero-fill the first `n` samples of
every output channel, render every cue additively, then multiply the same
region by the master volume. -/
def CueAudioManager.process_audio (m : CueAudioManager) (numCh : ℕ)
    (buf : AudioBuffer) (n : ℕ) : CueAudioManager × AudioBuffer :=
  let cleared : AudioBuffer := fun ch i =>
    if ch < numCh ∧ i < n then 0 else buf ch i
  let r := processCues numCh n m.cues cleared
  let final : AudioBuffer := fun ch i =>
    if ch < numCh ∧ i < n then m.masterVolume * r.2 ch i else r.2 ch i
  ({ m with cues := r.1 }, final)

/-- A `set_volume` or `set_pan` call with an arbitrary argument. -/
inductive CueParamCall where
  | callSetVolume (v : ℚ)
  | callSetPan (p : ℚ)

def applyCueParamCall (c : AudioCue) : CueParamCall → AudioCue
  | .callSetVolume v => c.set_volume v
  | .callSetPan p => c.set_pan p

/-! ## CrossfadeEngine (src/src/show_control/crossfade_engine.cpp) -/

inductive CrossfadeCurveType where
  | LINEAR
  | LOGARITHMIC
  | EXPONENTIAL
  | SINE_COSINE
  | CUSTOM
deriving DecidableEq, Repr

structure QueuedCrossfade where
  fromCueId : String
  toCueId : String
  durationSeconds : ℚ
deriving DecidableEq, Repr

structure CrossfadeInfo where
  fromCueId : String
  toCueId : String
  durationSeconds : ℚ
  currentPositionSeconds : ℚ
  progressNormalized : ℚ
  curveType : CrossfadeCurveType
  isActive : Bool
deriving DecidableEq, Repr

/-- `CrossfadeEngine::Impl` state.  `performance_metrics_`, the custom curve
points and the logging are omitted (no claim mentions them). -/
structure CrossfadeEngine where
  initialized : Bool
  sampleRate : ℤ
  isCrossfading : Bool
  crossfadeCurveType : CrossfadeCurveType
  crossfadeCurveParameter : ℚ
  crossfadeProgress : ℚ
  crossfadeDurationSamples : ℤ
  crossfadePosition : ℤ
  defaultDuration : ℚ
  autoStartTargetCue : Bool
  crossfadeInfo : CrossfadeInfo
  crossfadeQueue : List QueuedCrossfade

/-- The `Impl()` constructor (`crossfade_info_` default-constructed:
empty ids, zeroes, inactive). -/
def mkCrossfadeEngine : CrossfadeEngine :=
  { initialized := false
    sampleRate := 48000
    isCrossfading := false
    crossfadeCurveType := .SINE_COSINE
    crossfadeCurveParameter := 0
    crossfadeProgress := 0
    crossfadeDurationSamples := 0
    crossfadePosition := 0
    defaultDuration := 3
    autoStartTargetCue := true
    crossfadeInfo :=
      { fromCueId := ""
        toCueId := ""
        durationSeconds := 0
        currentPositionSeconds := 0
        progressNormalized := 0
        curveType := .SINE_COSINE
        isActive := false }
    crossfadeQueue := [] }

def CrossfadeEngine.engineInit (e : CrossfadeEngine) (sampleRate : ℤ) :
    Bool × CrossfadeEngine :=
  (true, { e with sampleRate := sampleRate, initialized := true })

/-- `stop_crossfade`: false if none active; otherwise deactivate and reset
the progress scalar. -/
def CrossfadeEngine.stop_crossfade (e : CrossfadeEngine) :
    Bool × CrossfadeEngine :=
  if e.isCrossfading = false then (false, e)
  else
    (true,
     { e with
       isCrossfading := false
       crossfadeProgress := 0
       crossfadeInfo := { e.crossfadeInfo with isActive := false } })

/-- `start_crossfade`: replaces (after stopping) any active crossfade, then
installs the new one with `duration_samples = int(duration * sample_rate)`,
position 0, progress 0. -/
def CrossfadeEngine.start_crossfade (e : CrossfadeEngine)
    (fromCueId toCueId : String) (durationSeconds : ℚ) :
    Bool × CrossfadeEngine :=
  let e1 := if e.isCrossfading then e.stop_crossfade.2 else e
  (true,
   { e1 with
     crossfadeInfo :=
       { fromCueId := fromCueId
         toCueId := toCueId
         durationSeconds := durationSeconds
         currentPositionSeconds := 0
         progressNormalized := 0
         curveType := e1.crossfadeCurveType
         isActive := true }
     crossfadeDurationSamples := c_int_trunc (durationSeconds * e1.sampleRate)
     crossfadePosition := 0
     crossfadeProgress := 0
     isCrossfading := true })

/-- `queue_crossfade`: appends to the FIFO pending queue, always succeeds. -/
def CrossfadeEngine.queue_crossfade (e : CrossfadeEngine)
    (fromCueId toCueId : String) (durationSeconds : ℚ) :
    Bool × CrossfadeEngine :=
  (true,
   { e with crossfadeQueue :=
      e.crossfadeQueue ++ [⟨fromCueId, toCueId, durationSeconds⟩] })

/-- The `for (sample = 0; sample < num_samples; ++sample)` progress loop of
`CrossfadeEngine::Impl::process_audio`: completion (position past the total)
marks the engine inactive, snaps the progress to 1 and breaks. -/
def crossfadeLoop : ℕ → CrossfadeEngine → CrossfadeEngine
  | 0, e => e
  | n + 1, e =>
    if e.crossfadeDurationSamples ≤ e.crossfadePosition then
      { e with
        isCrossfading := false
        crossfadeProgress := 1
        crossfadeInfo :=
          { e.crossfadeInfo with progressNormalized := 1, isActive := false } }
    else
      let progress : ℚ :=
        (e.crossfadePosition : ℚ) / (e.crossfadeDurationSamples : ℚ)
      crossfadeLoop n
        { e with
          crossfadeProgress := progress
          crossfadeInfo :=
            { e.crossfadeInfo with
              progressNormalized := progress
              currentPositionSeconds :=
                progress * e.crossfadeInfo.durationSeconds }
          crossfadePosition := e.crossfadePosition + 1 }

/-- `CrossfadeEngine::Impl::process_audio`: when idle, dequeue and start a
pending crossfade (if any) and return; when active, run the progress loop. -/
def CrossfadeEngine.process_audio (e : CrossfadeEngine) (numSamples : ℕ) :
    CrossfadeEngine :=
  if e.isCrossfading = false then
    match e.crossfadeQueue with
    | [] => e
    | next :: rest =>
      (({ e with crossfadeQueue := rest }).start_crossfade
        next.fromCueId next.toCueId next.durationSeconds).2
  else crossfadeLoop numSamples e

/-- A sequence of `process_audio` calls with the given sample counts. -/
def processCalls (e : CrossfadeEngine) : List ℕ → CrossfadeEngine
  | [] => e
  | n :: ns => processCalls (e.process_audio n) ns

/-- The per-sample progress invariant maintained by the crossfade engine
while a crossfade is active: the position is the count of samples consumed
so far, and the stored progress scalar is 0 before the first sample and
`(position - 1) / total` afterwards (the loop stores the pre-increment
ratio). -/
def ProgressInv (e : CrossfadeEngine) : Prop :=
  e.isCrossfading = true →
    0 ≤ e.crossfadePosition ∧
    ((e.crossfadePosition = 0 ∧ e.crossfadeProgress = 0) ∨
     (1 ≤ e.crossfadePosition ∧
      e.crossfadePosition ≤ e.crossfadeDurationSamples ∧
      e.crossfadeProgress =
        ((e.crossfadePosition : ℚ) - 1) / (e.crossfadeDurationSamples : ℚ)))

/-- Engine invariant for the monotonicity argument: an empty pending queue
(so no later call restarts a new crossfade) together with `ProgressInv`. -/
def EngineInv (e : CrossfadeEngine) : Prop :=
  e.crossfadeQueue = [] ∧ ProgressInv e

/-- Concrete playing cue used to instantiate the additivity theorem. -/
def mixFixtureCueA : AudioCue :=
  { mkAudioCue "a" "f" with
    state := CueState.PLAYING
    numChannels := 2
    durationSamples := 100
    audioData := fun _ _ => 1 / 4 }

/-- Second concrete playing cue used to instantiate the additivity theorem. -/
def mixFixtureCueB : AudioCue :=
  { mkAudioCue "b" "g" with
    state := CueState.PLAYING
    numChannels := 2
    durationSamples := 100
    audioData := fun _ _ => 1 / 8 }

/-- Concrete two-cue manager used to instantiate the additivity theorem. -/
def mixFixtureManager : CueAudioManager :=
  { mkCueAudioManager with cues := [mixFixtureCueA, mixFixtureCueB] }

/-! ## Crossfade gain curves (src/unnamed/part_010, lines 223-245)

The alternate `CrossfadeEngine::Impl` of `src/unnamed/part_010` computes the
per-sample crossfade gains via `calculate_fade_gain`; its transcendental
curve shapes are modelled over `ℝ`. -/

inductive CrossfadeCurve where
  | LINEAR
  | LOGARITHMIC
  | EQUAL_POWER
  | SINE_COSINE
  | EXPONENTIAL
deriving DecidableEq, Repr

/-- `CrossfadeEngine::Impl::calculate_fade_gain(progress, curve)`:
clamps the progress to [0, 1] and applies the selected curve shape. -/
noncomputable def calculate_fade_gain (progress : ℝ) (curve : CrossfadeCurve) : ℝ :=
  let p := max 0 (min 1 progress)
  match curve with
  | .LINEAR => p
  | .LOGARITHMIC => p * p
  | .EQUAL_POWER => Real.sin (p * (Real.pi * 0.5))
  | .SINE_COSINE => 0.5 * (1 - Real.cos (p * Real.pi))
  | .EXPONENTIAL => p ^ (3 : ℕ)

/-- The fade-out gain applied at progress `p` in the render loop of
`src/unnamed/part_010` (line 201): `calculate_fade_gain(1 - progress, curve)`. -/
noncomputable def fade_out_gain (p : ℝ) (curve : CrossfadeCurve) : ℝ :=
  calculate_fade_gain (1 - p) curve

/-- The fade-in gain applied at progress `p` in the render loop of
`src/unnamed/part_010` (line 202): `calculate_fade_gain(progress, curve)`. -/
noncomputable def fade_in_gain (p : ℝ) (curve : CrossfadeCurve) : ℝ :=
  calculate_fade_gain p curve

/-! ## Helper lemmas -/

theorem land255_eq_mod (x : ℕ) : x &&& (fifoSize - 1) = x % fifoSize := by
  have h := Nat.and_pow_two_sub_one_eq_mod x 8
  norm_num [fifoSize] at h ⊢
  exact h

theorem std_clamp_bounds (v lo hi : ℚ) (h : lo ≤ hi) :
    lo ≤ std_clamp v lo hi ∧ std_clamp v lo hi ≤ hi := by
  unfold std_clamp
  split_ifs with h1 h2
  · exact ⟨le_refl lo, h⟩
  · exact ⟨h, le_refl hi⟩
  · constructor <;> linarith

theorem pushResults_full {α : Type} (q : LockFreeFIFO α) (cs : List α)
    (h : (q.writePos + 1) &&& (fifoSize - 1) = q.readPos) :
    pushResults q cs = List.replicate cs.length false ∧ pushAll q cs = q := by
  induction cs with
  | nil => simp [pushResults, pushAll]
  | cons c cs ih =>
    have hpush : q.push c = (false, q) := by
      simp [LockFreeFIFO.push, h]
    constructor
    · simp [pushResults, hpush, ih.1, List.replicate_succ]
    · simp [pushAll, hpush, ih.2]

theorem expected_false {n k : ℕ} (hk : 255 ≤ k) :
    (List.range n).map (fun i => decide (k + i < 255)) = List.replicate n false := by
  apply List.eq_replicate_iff.mpr
  constructor
  · simp
  · intro b hb
    simp only [List.mem_map, List.mem_range] at hb
    obtain ⟨i, _, rfl⟩ := hb
    simp only [decide_eq_false_iff_not]
    omega

theorem expected_cons (n k : ℕ) :
    (List.range (n + 1)).map (fun i => decide (k + i < 255)) =
      decide (k < 255) :: (List.range n).map (fun i => decide ((k + 1) + i < 255)) := by
  rw [List.range_succ_eq_map]
  simp only [List.map_cons, List.map_map, Nat.add_zero]
  congr 1
  apply List.map_congr_left
  intro i _
  simp only [Function.comp_apply]
  have h : k + (i + 1) = k + 1 + i := by omega
  rw [Nat.succ_eq_add_one, h]

theorem pushResults_init_formula {α : Type} (cs : List α) :
    ∀ (q : LockFreeFIFO α) (k : ℕ), q.readPos = 0 → q.writePos = k → k ≤ 255 →
    pushResults q cs = (List.range cs.length).map (fun i => decide (k + i < 255)) := by
  induction cs with
  | nil => intro q k _ _ _; simp [pushResults]
  | cons c cs ih =>
    intro q k hr hw hk
    rcases Nat.lt_or_ge k 255 with hlt | hge
    · have hmod : (k + 1) % fifoSize = k + 1 := by
        apply Nat.mod_eq_of_lt
        have hs : fifoSize = 256 := rfl
        omega
      have hne : ¬ ((q.writePos + 1) &&& (fifoSize - 1) = q.readPos) := by
        rw [hw, hr, land255_eq_mod, hmod]
        omega
      have hpush : q.push c =
          (true,
           { q with
             buffer := fun i => if i = q.writePos then c else q.buffer i,
             writePos := (q.writePos + 1) &&& (fifoSize - 1) }) := by
        simp [LockFreeFIFO.push, hne]
      have hw' : ((q.push c).2).writePos = k + 1 := by
        rw [hpush, hw, land255_eq_mod, hmod]
      have hr' : ((q.push c).2).readPos = 0 := by
        rw [hpush]; exact hr
      have htail := ih (q.push c).2 (k + 1) hr' hw' (by omega)
      have hhead : (q.push c).1 = true := by rw [hpush]
      rw [List.length_cons, expected_cons]
      simp only [pushResults]
      rw [hhead, htail]
      congr 1
      simp [hlt]
    · have hk255 : k = 255 := le_antisymm hk hge
      have hfull : (q.writePos + 1) &&& (fifoSize - 1) = q.readPos := by
        rw [hw, hr, hk255, land255_eq_mod]
        decide
      rw [(pushResults_full q (c :: cs) hfull).1, expected_false (by omega)]

/-! ## Claim theorems -/

/-- Claim C5 (amended): `AudioCue::start()` unconditionally sets the state to
PLAYING and resets the read cursor to 0, from every state including PLAYING
and PAUSED (no cursor preservation, no no-op); `AudioCue::stop()`
unconditionally sets the state to STOPPED and resets the cursor to 0, so
`stop()` on an already-STOPPED cue leaves the state unchanged but resets the
cursor. -/
theorem start_stop_unconditional_reset :
    ∀ c : AudioCue,
      c.start.state = CueState.PLAYING ∧ c.start.currentPosition = 0 ∧
      c.stop.state = CueState.STOPPED ∧ c.stop.currentPosition = 0 := by
  intro c
  exact ⟨rfl, rfl, rfl, rfl⟩

/-- Claim C5 counterexample: `start()` on a PLAYING cue with cursor 5 resets
the cursor to 0 (not a no-op); `start()` from PAUSED with cursor 7 resets the
cursor instead of preserving it; `stop()` on an already-STOPPED cue with
cursor 9 resets the cursor instead of leaving it unchanged. -/
theorem start_noop_claim_false :
    AudioCue.currentPosition (AudioCue.start
      { mkAudioCue "a" "f" with state := CueState.PLAYING, currentPosition := 5 }) = 0 ∧
    AudioCue.currentPosition
      ({ mkAudioCue "a" "f" with state := CueState.PLAYING, currentPosition := 5 }) = 5 ∧
    AudioCue.currentPosition (AudioCue.start
      { mkAudioCue "a" "f" with state := CueState.PAUSED, currentPosition := 7 }) = 0 ∧
    AudioCue.currentPosition (AudioCue.stop
      { mkAudioCue "a" "f" with state := CueState.STOPPED, currentPosition := 9 }) = 0 ∧
    AudioCue.currentPosition
      ({ mkAudioCue "a" "f" with state := CueState.STOPPED, currentPosition := 9 }) = 9 := by
  exact ⟨rfl, rfl, rfl, rfl, rfl⟩

/-- Claim C8: for every sequence of `set_volume`/`set_pan` calls with
arbitrary (including out-of-range) inputs, the stored volume stays in [0, 1]
and the stored pan in [-1, 1]; the master volume stays in [0, 1] across every
sequence of `set_master_volume` calls. -/
theorem gain_clamp_invariant :
    (∀ (c : AudioCue) (calls : List CueParamCall),
        0 ≤ c.volume → c.volume ≤ 1 → -1 ≤ c.pan → c.pan ≤ 1 →
        0 ≤ (calls.foldl applyCueParamCall c).volume ∧
        (calls.foldl applyCueParamCall c).volume ≤ 1 ∧
        -1 ≤ (calls.foldl applyCueParamCall c).pan ∧
        (calls.foldl applyCueParamCall c).pan ≤ 1) ∧
    (∀ (m : CueAudioManager) (vs : List ℚ),
        0 ≤ m.masterVolume → m.masterVolume ≤ 1 →
        0 ≤ (vs.foldl CueAudioManager.set_master_volume m).masterVolume ∧
        (vs.foldl CueAudioManager.set_master_volume m).masterVolume ≤ 1) := by
  constructor
  · intro c calls
    induction calls generalizing c with
    | nil => intro h1 h2 h3 h4; exact ⟨h1, h2, h3, h4⟩
    | cons call calls ih =>
      intro h1 h2 h3 h4
      simp only [List.foldl_cons]
      cases call with
      | callSetVolume v =>
        have hb := std_clamp_bounds v 0 1 (by norm_num)
        exact ih _ hb.1 hb.2 h3 h4
      | callSetPan p =>
        have hb := std_clamp_bounds p (-1) 1 (by norm_num)
        exact ih _ h1 h2 hb.1 hb.2
  · intro m vs
    induction vs generalizing m with
    | nil => intro h1 h2; exact ⟨h1, h2⟩
    | cons v vs ih =>
      intro h1 h2
      simp only [List.foldl_cons]
      have hb := std_clamp_bounds v 0 1 (by norm_num)
      exact ih _ hb.1 hb.2

/-- Claim C8 witness: starting from a freshly constructed cue and manager,
the invariant holds after concrete out-of-range calls. -/
theorem gain_clamp_invariant_witness :
    (0 ≤ ([CueParamCall.callSetVolume 7, CueParamCall.callSetPan (-3)].foldl
        applyCueParamCall (mkAudioCue "a" "f")).volume ∧
      ([CueParamCall.callSetVolume 7, CueParamCall.callSetPan (-3)].foldl
        applyCueParamCall (mkAudioCue "a" "f")).volume ≤ 1 ∧
      -1 ≤ ([CueParamCall.callSetVolume 7, CueParamCall.callSetPan (-3)].foldl
        applyCueParamCall (mkAudioCue "a" "f")).pan ∧
      ([CueParamCall.callSetVolume 7, CueParamCall.callSetPan (-3)].foldl
        applyCueParamCall (mkAudioCue "a" "f")).pan ≤ 1) ∧
    (0 ≤ ([(5 : ℚ), -2].foldl CueAudioManager.set_master_volume
        mkCueAudioManager).masterVolume ∧
      ([(5 : ℚ), -2].foldl CueAudioManager.set_master_volume
        mkCueAudioManager).masterVolume ≤ 1) :=
  ⟨gain_clamp_invariant.1 (mkAudioCue "a" "f") _
      (by norm_num [mkAudioCue]) (by norm_num [mkAudioCue])
      (by norm_num [mkAudioCue]) (by norm_num [mkAudioCue]),
   gain_clamp_invariant.2 mkCueAudioManager _
      (by norm_num [mkCueAudioManager]) (by norm_num [mkCueAudioManager])⟩

/-- Claim C7: push on a full queue returns false without changing the indices
or overwriting any stored entry; pop on an empty queue returns false; on a
full queue every further push (no intervening pop) fails and leaves the queue
unchanged; and starting from an empty queue the i-th consecutive push succeeds
exactly for i < 255. -/
theorem lockfree_queue_backpressure {α : Type} :
    (∀ (q : LockFreeFIFO α) (item : α),
        (q.writePos + 1) &&& (fifoSize - 1) = q.readPos →
        q.push item = (false, q)) ∧
    (∀ q : LockFreeFIFO α, q.readPos = q.writePos → q.pop = (none, q)) ∧
    (∀ (q : LockFreeFIFO α) (cs : List α),
        (q.writePos + 1) &&& (fifoSize - 1) = q.readPos →
        pushResults q cs = List.replicate cs.length false ∧ pushAll q cs = q) ∧
    (∀ (a0 : α) (cs : List α),
        pushResults (LockFreeFIFO.init a0) cs =
          (List.range cs.length).map (fun i => decide (i < 255))) := by
  refine ⟨?_, ?_, ?_, ?_⟩
  · intro q item h
    simp [LockFreeFIFO.push, h]
  · intro q h
    simp [LockFreeFIFO.pop, h]
  · intro q cs h
    exact pushResults_full q cs h
  · intro a0 cs
    have h := pushResults_init_formula cs (LockFreeFIFO.init a0) 0 rfl rfl (by omega)
    simpa using h

/-- Claim C7 witness: a concrete full queue rejects a push unchanged, a
concrete empty queue rejects a pop, and three pushes into an empty queue all
succeed. -/
theorem lockfree_queue_backpressure_witness :
    LockFreeFIFO.push ⟨fun _ => (0 : ℕ), 255, 0⟩ 7 =
      (false, (⟨fun _ => (0 : ℕ), 255, 0⟩ : LockFreeFIFO ℕ)) ∧
    LockFreeFIFO.pop (LockFreeFIFO.init (0 : ℕ)) =
      (none, LockFreeFIFO.init (0 : ℕ)) ∧
    pushResults (LockFreeFIFO.init (0 : ℕ)) [1, 2, 3] =
      (List.range 3).map (fun i => decide (i < 255)) :=
  ⟨lockfree_queue_backpressure.1 _ 7 (by decide),
   lockfree_queue_backpressure.2.1 _ rfl,
   lockfree_queue_backpressure.2.2.2 0 [1, 2, 3]⟩

/-- Claim C10: the 256-slot FIFO holds at most 255 elements: from empty, the
first 255 pushes succeed and the 256th consecutive push fails, and `size()`
never returns a value greater than 255 in any state. -/
theorem fifo_capacity_255 {α : Type} :
    (∀ (a0 : α) (cs : List α), cs.length = 256 →
        pushResults (LockFreeFIFO.init a0) cs =
          List.replicate 255 true ++ [false]) ∧
    (∀ q : LockFreeFIFO α, q.size ≤ 255) := by
  constructor
  · intro a0 cs hlen
    have h := pushResults_init_formula cs (LockFreeFIFO.init a0) 0 rfl rfl (by omega)
    rw [h, hlen]
    set_option maxRecDepth 4000 in decide
  · intro q
    have h : q.size = ((q.writePos + 2 ^ 64 - q.readPos) % 2 ^ 64) % fifoSize := by
      unfold LockFreeFIFO.size
      rw [land255_eq_mod]
    have hlt : ((q.writePos + 2 ^ 64 - q.readPos) % 2 ^ 64) % fifoSize < fifoSize :=
      Nat.mod_lt _ (by norm_num [fifoSize])
    have hs : fifoSize = 256 := rfl
    omega

/-- Claim C10 witness: pushing 256 concrete commands into the empty queue
yields 255 successes then one failure. -/
theorem fifo_capacity_255_witness :
    pushResults (LockFreeFIFO.init (0 : ℕ)) (List.replicate 256 0) =
      List.replicate 255 true ++ [false] :=
  fifo_capacity_255.1 0 (List.replicate 256 0) (List.length_replicate 256 0)

/-- Claim C9: for the EQUAL_POWER curve, the render loop's fade-out gain at
progress p in [0, 1] equals cos(p·π/2), its fade-in gain equals sin(p·π/2),
and their squares sum to exactly 1. -/
theorem equal_power_constant_power (p : ℝ) (h0 : 0 ≤ p) (h1 : p ≤ 1) :
    fade_out_gain p CrossfadeCurve.EQUAL_POWER = Real.cos (p * (Real.pi / 2)) ∧
    fade_in_gain p CrossfadeCurve.EQUAL_POWER = Real.sin (p * (Real.pi / 2)) ∧
    fade_out_gain p CrossfadeCurve.EQUAL_POWER ^ 2 +
      fade_in_gain p CrossfadeCurve.EQUAL_POWER ^ 2 = 1 := by
  have h05 : (0.5 : ℝ) = 1 / 2 := by norm_num
  have hin : fade_in_gain p CrossfadeCurve.EQUAL_POWER =
      Real.sin (p * (Real.pi / 2)) := by
    simp only [fade_in_gain, calculate_fade_gain]
    rw [min_eq_right h1, max_eq_right h0, h05]
    ring_nf
  have hout : fade_out_gain p CrossfadeCurve.EQUAL_POWER =
      Real.cos (p * (Real.pi / 2)) := by
    simp only [fade_out_gain, calculate_fade_gain]
    rw [min_eq_right (by linarith), max_eq_right (by linarith), h05]
    have harg : (1 - p) * (Real.pi * (1 / 2)) =
        Real.pi / 2 - p * (Real.pi / 2) := by ring
    rw [harg, Real.sin_pi_div_two_sub]
  refine ⟨hout, hin, ?_⟩
  rw [hout, hin]
  exact Real.cos_sq_add_sin_sq _

/-- Claim C9 witness: the constant-power identity at progress 1/2. -/
theorem equal_power_constant_power_witness :
    fade_out_gain (1 / 2) CrossfadeCurve.EQUAL_POWER ^ 2 +
      fade_in_gain (1 / 2) CrossfadeCurve.EQUAL_POWER ^ 2 = 1 :=
  (equal_power_constant_power (1 / 2) (by norm_num) (by norm_num)).2.2

/-! ## Crossfade engine lemmas -/

theorem crossfadeLoop_queue (n : ℕ) : ∀ e : CrossfadeEngine,
    (crossfadeLoop n e).crossfadeQueue = e.crossfadeQueue := by
  induction n with
  | zero => intro e; rfl
  | succ n ih =>
    intro e
    simp only [crossfadeLoop]
    split_ifs with h
    · rfl
    · exact ih _

theorem crossfadeLoop_pos_nonneg (n : ℕ) : ∀ e : CrossfadeEngine,
    0 ≤ e.crossfadePosition → 0 ≤ (crossfadeLoop n e).crossfadePosition := by
  induction n with
  | zero => intro e h; exact h
  | succ n ih =>
    intro e h
    simp only [crossfadeLoop]
    split_ifs with hg
    · exact h
    · exact ih _ (by simp; omega)

/-- Running the crossfade progress loop for `k ≥ 1` samples that all fit
strictly inside the crossfade: the position advances by `k` and the stored
progress is the ratio of the last consumed sample index to the total. -/
theorem crossfadeLoop_run (k : ℕ) : ∀ e : CrossfadeEngine,
    1 ≤ k →
    e.crossfadePosition + k ≤ e.crossfadeDurationSamples →
    (crossfadeLoop k e).crossfadePosition = e.crossfadePosition + k ∧
    (crossfadeLoop k e).crossfadeProgress =
      ((e.crossfadePosition : ℚ) + (k : ℚ) - 1) /
        ((e.crossfadeDurationSamples : ℤ) : ℚ) ∧
    (crossfadeLoop k e).isCrossfading = e.isCrossfading ∧
    (crossfadeLoop k e).crossfadeDurationSamples = e.crossfadeDurationSamples := by
  induction k with
  | zero => intro e h1 _; omega
  | succ k ih =>
    intro e _ hle
    have hguard : ¬ (e.crossfadeDurationSamples ≤ e.crossfadePosition) := by omega
    simp only [crossfadeLoop, if_neg hguard]
    rcases Nat.eq_zero_or_pos k with hk0 | hkpos
    · subst hk0
      simp only [crossfadeLoop]
      refine ⟨?_, ?_, ?_, ?_⟩
      · simp
      · show (e.crossfadePosition : ℚ) / ((e.crossfadeDurationSamples : ℤ) : ℚ) = _
        push_cast
        ring_nf
      · trivial
      · trivial
    · have hstep := ih
        { e with
          crossfadeProgress :=
            (e.crossfadePosition : ℚ) / (e.crossfadeDurationSamples : ℚ)
          crossfadeInfo :=
            { e.crossfadeInfo with
              progressNormalized :=
                (e.crossfadePosition : ℚ) / (e.crossfadeDurationSamples : ℚ)
              currentPositionSeconds :=
                (e.crossfadePosition : ℚ) / (e.crossfadeDurationSamples : ℚ) *
                  e.crossfadeInfo.durationSeconds }
          crossfadePosition := e.crossfadePosition + 1 }
        hkpos (by simp; omega)
      refine ⟨?_, ?_, ?_, ?_⟩
      · rw [hstep.1]; simp; omega
      · rw [hstep.2.1]
        push_cast
        ring_nf
      · exact hstep.2.2.1
      · exact hstep.2.2.2

/-- While active, one pass of the progress loop never decreases the stored
progress and re-establishes `ProgressInv`. -/
theorem crossfadeLoop_mono (n : ℕ) : ∀ e : CrossfadeEngine,
    ProgressInv e → e.isCrossfading = true →
    e.crossfadeProgress ≤ (crossfadeLoop n e).crossfadeProgress ∧
    ProgressInv (crossfadeLoop n e) := by
  induction n with
  | zero => intro e hInv _; exact ⟨le_refl _, hInv⟩
  | succ n ih =>
    intro e hInv hact
    obtain ⟨hpos, hcase⟩ := hInv hact
    by_cases hguard : e.crossfadeDurationSamples ≤ e.crossfadePosition
    · simp only [crossfadeLoop, if_pos hguard]
      constructor
      · show e.crossfadeProgress ≤ 1
        rcases hcase with ⟨_, hpr⟩ | ⟨h1, h2, hpr⟩
        · rw [hpr]; norm_num
        · rw [hpr]
          have hdpos : (0 : ℚ) < (e.crossfadeDurationSamples : ℚ) := by
            have : (1 : ℤ) ≤ e.crossfadeDurationSamples := by omega
            exact_mod_cast lt_of_lt_of_le zero_lt_one (by exact_mod_cast this)
          rw [div_le_one hdpos]
          have : (e.crossfadePosition : ℚ) ≤ (e.crossfadeDurationSamples : ℚ) := by
            exact_mod_cast h2
          linarith
      · intro habs
        exact absurd habs (by simp)
    · push_neg at hguard
      have hdpos : (0 : ℚ) < (e.crossfadeDurationSamples : ℚ) := by
        exact_mod_cast lt_of_le_of_lt hpos hguard
      simp only [crossfadeLoop, if_neg (not_le.mpr hguard)]
      have hmono1 : e.crossfadeProgress ≤
          (e.crossfadePosition : ℚ) / (e.crossfadeDurationSamples : ℚ) := by
        rcases hcase with ⟨_, hpr⟩ | ⟨h1, _, hpr⟩
        · rw [hpr]
          apply div_nonneg _ (le_of_lt hdpos)
          exact_mod_cast hpos
        · rw [hpr]
          apply (div_le_div_right hdpos).mpr
          have : ((e.crossfadePosition : ℤ) : ℚ) = (e.crossfadePosition : ℚ) := rfl
          linarith
      have hInv' : ProgressInv
          { e with
            crossfadeProgress :=
              (e.crossfadePosition : ℚ) / (e.crossfadeDurationSamples : ℚ)
            crossfadeInfo :=
              { e.crossfadeInfo with
                progressNormalized :=
                  (e.crossfadePosition : ℚ) / (e.crossfadeDurationSamples : ℚ)
                currentPositionSeconds :=
                  (e.crossfadePosition : ℚ) / (e.crossfadeDurationSamples : ℚ) *
                    e.crossfadeInfo.durationSeconds }
            crossfadePosition := e.crossfadePosition + 1 } := by
        intro _
        constructor
        · simp; omega
        · right
          refine ⟨by simp; omega, by simp; omega, ?_⟩

          push_cast
          ring_nf
      have hstep := ih _ hInv' hact
      exact ⟨le_trans hmono1 hstep.1, hstep.2⟩

theorem c_int_trunc_intCast (z : ℤ) : c_int_trunc (z : ℚ) = z := by
  unfold c_int_trunc
  split_ifs with h
  · exact Int.floor_intCast z
  · exact Int.ceil_intCast z

theorem c_int_trunc_eq_intCast (q : ℚ) (z : ℤ) (h : q = (z : ℚ)) :
    c_int_trunc q = z := by
  rw [h]
  exact c_int_trunc_intCast z

/-- At the first sample processed with the position already past the total,
the loop completes: inactive, progress snapped to 1, position and queue
untouched. -/
theorem crossfadeLoop_complete (e : CrossfadeEngine)
    (hguard : e.crossfadeDurationSamples ≤ e.crossfadePosition)
    (n : ℕ) (hn : 1 ≤ n) :
    (crossfadeLoop n e).isCrossfading = false ∧
    (crossfadeLoop n e).crossfadeProgress = 1 ∧
    (crossfadeLoop n e).crossfadePosition = e.crossfadePosition ∧
    (crossfadeLoop n e).crossfadeQueue = e.crossfadeQueue := by
  obtain ⟨m, rfl⟩ : ∃ m, n = m + 1 := ⟨n - 1, by omega⟩
  simp only [crossfadeLoop, if_pos hguard]
  exact ⟨trivial, trivial, trivial, trivial⟩

/-- Splitting one non-completing iteration off the front of the loop. -/
theorem crossfadeLoop_succ_advance (n : ℕ) (e : CrossfadeEngine)
    (h : ¬ (e.crossfadeDurationSamples ≤ e.crossfadePosition)) :
    crossfadeLoop (n + 1) e = crossfadeLoop n (crossfadeLoop 1 e) := by
  simp only [crossfadeLoop, if_neg h]

theorem start_crossfade_fields (e : CrossfadeEngine) (f t : String) (d : ℚ) :
    ((e.start_crossfade f t d).2).isCrossfading = true ∧
    ((e.start_crossfade f t d).2).crossfadePosition = 0 ∧
    ((e.start_crossfade f t d).2).crossfadeProgress = 0 ∧
    ((e.start_crossfade f t d).2).crossfadeQueue = e.crossfadeQueue ∧
    ((e.start_crossfade f t d).2).crossfadeDurationSamples =
      c_int_trunc (d * e.sampleRate) ∧
    ((e.start_crossfade f t d).2).sampleRate = e.sampleRate := by
  unfold CrossfadeEngine.start_crossfade CrossfadeEngine.stop_crossfade
  by_cases h : e.isCrossfading <;> simp [h]

theorem process_audio_of_active (e : CrossfadeEngine)
    (h : e.isCrossfading = true) (n : ℕ) :
    e.process_audio n = crossfadeLoop n e := by
  unfold CrossfadeEngine.process_audio
  rw [h]
  simp

theorem process_audio_of_idle (e : CrossfadeEngine)
    (h : e.isCrossfading = false) (hq : e.crossfadeQueue = []) (n : ℕ) :
    e.process_audio n = e := by
  unfold CrossfadeEngine.process_audio
  rw [h, hq]
  rfl

theorem process_audio_of_queued (e : CrossfadeEngine)
    (h : e.isCrossfading = false) (q : QueuedCrossfade)
    (qs : List QueuedCrossfade) (hq : e.crossfadeQueue = q :: qs) (n : ℕ) :
    e.process_audio n =
      (({ e with crossfadeQueue := qs }).start_crossfade
        q.fromCueId q.toCueId q.durationSeconds).2 := by
  unfold CrossfadeEngine.process_audio
  rw [h, hq]
  rfl

theorem process_audio_mono (e : CrossfadeEngine) (hInv : EngineInv e) (n : ℕ) :
    e.crossfadeProgress ≤ (e.process_audio n).crossfadeProgress ∧
    EngineInv (e.process_audio n) := by
  obtain ⟨hq, hp⟩ := hInv
  cases hb : e.isCrossfading with
  | true =>
    rw [process_audio_of_active e hb n]
    have h := crossfadeLoop_mono n e hp hb
    refine ⟨h.1, ?_, h.2⟩
    rw [crossfadeLoop_queue]
    exact hq
  | false =>
    rw [process_audio_of_idle e hb hq n]
    exact ⟨le_refl _, hq, hp⟩

theorem processCalls_inv (ns : List ℕ) : ∀ e : CrossfadeEngine,
    EngineInv e → EngineInv (processCalls e ns) := by
  induction ns with
  | nil => intro e h; exact h
  | cons n ns ih =>
    intro e h
    exact ih _ (process_audio_mono e h n).2

/-- Claim C2 (amended): for a crossfade started on an engine whose pending
queue is empty, the stored progress is non-decreasing across successive
process_audio calls; but after exactly T = int(d·sr) ≥ 1 samples have been
rendered since start_crossfade the progress equals (T-1)/T — not 1.0 — and
the crossfade is still active; processing one further sample snaps the
progress to exactly 1.0 and makes is_crossfading() false. -/
theorem crossfade_progress_monotone_late_completion :
    (∀ (e : CrossfadeEngine) (f t : String) (d : ℚ) (ns : List ℕ) (n : ℕ),
        e.crossfadeQueue = [] →
        (processCalls (e.start_crossfade f t d).2 ns).crossfadeProgress ≤
          ((processCalls (e.start_crossfade f t d).2 ns).process_audio n).crossfadeProgress) ∧
    (∀ (e : CrossfadeEngine) (f t : String) (d : ℚ) (T : ℕ),
        c_int_trunc (d * e.sampleRate) = (T : ℤ) → 1 ≤ T →
        ((e.start_crossfade f t d).2.process_audio T).crossfadeProgress =
          ((T : ℚ) - 1) / (T : ℚ) ∧
        ((e.start_crossfade f t d).2.process_audio T).isCrossfading = true ∧
        (((e.start_crossfade f t d).2.process_audio T).process_audio 1).crossfadeProgress = 1 ∧
        (((e.start_crossfade f t d).2.process_audio T).process_audio 1).isCrossfading = false) := by
  constructor
  · intro e f t d ns n hq
    obtain ⟨hact, hpos, hprog, hq', _, _⟩ := start_crossfade_fields e f t d
    have hInv0 : EngineInv (e.start_crossfade f t d).2 := by
      refine ⟨by rw [hq']; exact hq, ?_⟩
      intro _
      rw [hpos, hprog]
      exact ⟨le_refl 0, Or.inl ⟨rfl, rfl⟩⟩
    exact (process_audio_mono _ (processCalls_inv ns _ hInv0) n).1
  · intro e f t d T hT hT1
    obtain ⟨hact, hpos, hprog, _, hdur, _⟩ := start_crossfade_fields e f t d
    have hdur' : ((e.start_crossfade f t d).2).crossfadeDurationSamples = (T : ℤ) := by
      rw [hdur, hT]
    have hproc : (e.start_crossfade f t d).2.process_audio T =
        crossfadeLoop T (e.start_crossfade f t d).2 :=
      process_audio_of_active _ hact T
    have hrun := crossfadeLoop_run T (e.start_crossfade f t d).2 hT1
      (by rw [hpos, hdur']; omega)
    have h1 : (crossfadeLoop T (e.start_crossfade f t d).2).crossfadeProgress =
        ((T : ℚ) - 1) / (T : ℚ) := by
      rw [hrun.2.1, hpos, hdur']
      push_cast
      ring_nf
    have hact2 : (crossfadeLoop T (e.start_crossfade f t d).2).isCrossfading = true := by
      rw [hrun.2.2.1]
      exact hact
    have hpos2 : (crossfadeLoop T (e.start_crossfade f t d).2).crossfadePosition = (T : ℤ) := by
      rw [hrun.1, hpos]
      omega
    have hdur2 : (crossfadeLoop T (e.start_crossfade f t d).2).crossfadeDurationSamples = (T : ℤ) := by
      rw [hrun.2.2.2]
      exact hdur'
    have hguard : (crossfadeLoop T (e.start_crossfade f t d).2).crossfadeDurationSamples ≤
        (crossfadeLoop T (e.start_crossfade f t d).2).crossfadePosition := by
      rw [hpos2, hdur2]
    have hproc2 : (crossfadeLoop T (e.start_crossfade f t d).2).process_audio 1 =
        crossfadeLoop 1 (crossfadeLoop T (e.start_crossfade f t d).2) :=
      process_audio_of_active _ hact2 1
    refine ⟨?_, ?_, ?_, ?_⟩
    · rw [hproc]
      exact h1
    · rw [hproc]
      exact hact2
    · rw [hproc, hproc2]
      simp only [crossfadeLoop, if_pos hguard]
    · rw [hproc, hproc2]
      simp only [crossfadeLoop, if_pos hguard]

/-- Claim C2 witness: concrete engine at sample rate 4, crossfade of 1 s
(4 samples): monotone step after a 2-sample call, and the completion shape
after 4 then 1 further samples. -/
theorem crossfade_progress_monotone_late_completion_witness :
    ((processCalls ((mkCrossfadeEngine.engineInit 4).2.start_crossfade "a" "b" 1).2 [2]).crossfadeProgress ≤
      ((processCalls ((mkCrossfadeEngine.engineInit 4).2.start_crossfade "a" "b" 1).2 [2]).process_audio 3).crossfadeProgress) ∧
    (((mkCrossfadeEngine.engineInit 4).2.start_crossfade "a" "b" 1).2.process_audio 4).crossfadeProgress = ((4 : ℚ) - 1) / (4 : ℚ) ∧
    (((mkCrossfadeEngine.engineInit 4).2.start_crossfade "a" "b" 1).2.process_audio 4).isCrossfading = true ∧
    ((((mkCrossfadeEngine.engineInit 4).2.start_crossfade "a" "b" 1).2.process_audio 4).process_audio 1).crossfadeProgress = 1 ∧
    ((((mkCrossfadeEngine.engineInit 4).2.start_crossfade "a" "b" 1).2.process_audio 4).process_audio 1).isCrossfading = false :=
  ⟨crossfade_progress_monotone_late_completion.1
      (mkCrossfadeEngine.engineInit 4).2 "a" "b" 1 [2] 3 rfl,
   crossfade_progress_monotone_late_completion.2
      (mkCrossfadeEngine.engineInit 4).2 "a" "b" 1 4
      (c_int_trunc_eq_intCast _ _ (by norm_num [CrossfadeEngine.engineInit]))
      (by omega)⟩

/-- Claim C2 counterexample: with sample rate 4 and a 1-second crossfade
(4 samples), after exactly 4 rendered samples the progress is 3/4 — not
exactly 1.0 as claimed — and is_crossfading() still returns true. -/
theorem crossfade_exact_completion_claim_false :
    (((mkCrossfadeEngine.engineInit 4).2.start_crossfade "a" "b" 1).2.process_audio 4).crossfadeProgress = 3 / 4 ∧
    (((mkCrossfadeEngine.engineInit 4).2.start_crossfade "a" "b" 1).2.process_audio 4).isCrossfading = true := by
  obtain ⟨hact, hpos, hprog, hq, hdur, hsr⟩ :=
    start_crossfade_fields (mkCrossfadeEngine.engineInit 4).2 "a" "b" 1
  have hdur4 : ((mkCrossfadeEngine.engineInit 4).2.start_crossfade "a" "b" 1).2.crossfadeDurationSamples = 4 := by
    rw [hdur]
    exact c_int_trunc_eq_intCast _ _ (by norm_num [CrossfadeEngine.engineInit])
  have hproc := process_audio_of_active _ hact 4
  have hrun := crossfadeLoop_run 4 ((mkCrossfadeEngine.engineInit 4).2.start_crossfade "a" "b" 1).2
    (by omega) (by rw [hpos, hdur4]; omega)
  constructor
  · rw [hproc, hrun.2.1, hpos, hdur4]
    norm_num
  · rw [hproc, hrun.2.2.1]
    exact hact

/-- Claim C6 (amended): a process_audio call that finds a crossfade active
never touches the pending queue — even when it completes that crossfade in
this call — so the queued crossfade is not started in the same call;
instead, the next process_audio call that finds no active crossfade dequeues
the FIFO front and starts it (active, position 0, progress 0, parameters
taken from the dequeued entry) before processing any samples. -/
theorem crossfade_queue_dequeue_next_call :
    (∀ (e : CrossfadeEngine) (n : ℕ), e.isCrossfading = true →
        (e.process_audio n).crossfadeQueue = e.crossfadeQueue) ∧
    (∀ (e : CrossfadeEngine) (n : ℕ) (q : QueuedCrossfade)
        (qs : List QueuedCrossfade),
        e.isCrossfading = false → e.crossfadeQueue = q :: qs →
        (e.process_audio n).isCrossfading = true ∧
        (e.process_audio n).crossfadeQueue = qs ∧
        (e.process_audio n).crossfadeInfo.fromCueId = q.fromCueId ∧
        (e.process_audio n).crossfadeInfo.toCueId = q.toCueId ∧
        (e.process_audio n).crossfadeDurationSamples =
          c_int_trunc (q.durationSeconds * e.sampleRate) ∧
        (e.process_audio n).crossfadePosition = 0 ∧
        (e.process_audio n).crossfadeProgress = 0) := by
  constructor
  · intro e n h
    rw [process_audio_of_active e h n, crossfadeLoop_queue]
  · intro e n q qs h hq
    rw [process_audio_of_queued e h q qs hq n]
    obtain ⟨h1, h2, h3, h4, h5, h6⟩ :=
      start_crossfade_fields { e with crossfadeQueue := qs }
        q.fromCueId q.toCueId q.durationSeconds
    refine ⟨h1, h4, ?_, ?_, h5, h2, h3⟩
    · unfold CrossfadeEngine.start_crossfade CrossfadeEngine.stop_crossfade
      by_cases hb : ({ e with crossfadeQueue := qs } : CrossfadeEngine).isCrossfading <;>
        simp [hb]
    · unfold CrossfadeEngine.start_crossfade CrossfadeEngine.stop_crossfade
      by_cases hb : ({ e with crossfadeQueue := qs } : CrossfadeEngine).isCrossfading <;>
        simp [hb]

/-- Claim C6 witness: an idle engine with one queued crossfade starts it at
the top of the next process_audio call; an active engine's call leaves the
queue alone. -/
theorem crossfade_queue_dequeue_next_call_witness :
    ((((mkCrossfadeEngine.engineInit 4).2.start_crossfade "x" "y" 1).2.process_audio 2).crossfadeQueue =
      (((mkCrossfadeEngine.engineInit 4).2.start_crossfade "x" "y" 1).2).crossfadeQueue) ∧
    ((((mkCrossfadeEngine.engineInit 4).2.queue_crossfade "a" "b" 1).2.process_audio 2).isCrossfading = true ∧
      (((mkCrossfadeEngine.engineInit 4).2.queue_crossfade "a" "b" 1).2.process_audio 2).crossfadeQueue = [] ∧
      (((mkCrossfadeEngine.engineInit 4).2.queue_crossfade "a" "b" 1).2.process_audio 2).crossfadeInfo.fromCueId =
        QueuedCrossfade.fromCueId ⟨"a", "b", 1⟩ ∧
      (((mkCrossfadeEngine.engineInit 4).2.queue_crossfade "a" "b" 1).2.process_audio 2).crossfadeInfo.toCueId =
        QueuedCrossfade.toCueId ⟨"a", "b", 1⟩ ∧
      (((mkCrossfadeEngine.engineInit 4).2.queue_crossfade "a" "b" 1).2.process_audio 2).crossfadeDurationSamples =
        c_int_trunc (QueuedCrossfade.durationSeconds ⟨"a", "b", 1⟩ *
          (((mkCrossfadeEngine.engineInit 4).2.queue_crossfade "a" "b" 1).2).sampleRate) ∧
      (((mkCrossfadeEngine.engineInit 4).2.queue_crossfade "a" "b" 1).2.process_audio 2).crossfadePosition = 0 ∧
      (((mkCrossfadeEngine.engineInit 4).2.queue_crossfade "a" "b" 1).2.process_audio 2).crossfadeProgress = 0) :=
  ⟨crossfade_queue_dequeue_next_call.1
      ((mkCrossfadeEngine.engineInit 4).2.start_crossfade "x" "y" 1).2 2 rfl,
   crossfade_queue_dequeue_next_call.2
      ((mkCrossfadeEngine.engineInit 4).2.queue_crossfade "a" "b" 1).2 2
      ⟨"a", "b", 1⟩ [] rfl rfl⟩

/-- Claim C6 counterexample: sample rate 4, an active 1-sample crossfade and
one queued crossfade; a single process_audio call completes the active
crossfade (engine inactive at return) yet the queued crossfade is still
sitting in the queue, unstarted — so the dequeue did not happen in the same
call that reached elapsed == total. -/
theorem crossfade_same_tick_dequeue_claim_false :
    ((((mkCrossfadeEngine.engineInit 4).2.start_crossfade "a" "b" (1 / 4)).2.queue_crossfade "b" "c" 1).2.process_audio 2).isCrossfading = false ∧
    ((((mkCrossfadeEngine.engineInit 4).2.start_crossfade "a" "b" (1 / 4)).2.queue_crossfade "b" "c" 1).2.process_audio 2).crossfadeQueue =
      [⟨"b", "c", 1⟩] := by
  have hact : ((((mkCrossfadeEngine.engineInit 4).2.start_crossfade "a" "b" (1 / 4)).2.queue_crossfade "b" "c" 1).2).isCrossfading = true := rfl
  have hpos : ((((mkCrossfadeEngine.engineInit 4).2.start_crossfade "a" "b" (1 / 4)).2.queue_crossfade "b" "c" 1).2).crossfadePosition = 0 := rfl
  have hq : ((((mkCrossfadeEngine.engineInit 4).2.start_crossfade "a" "b" (1 / 4)).2.queue_crossfade "b" "c" 1).2).crossfadeQueue = [⟨"b", "c", 1⟩] := rfl
  have hdur : ((((mkCrossfadeEngine.engineInit 4).2.start_crossfade "a" "b" (1 / 4)).2.queue_crossfade "b" "c" 1).2).crossfadeDurationSamples = 1 := by
    show c_int_trunc (1 / 4 * (((mkCrossfadeEngine.engineInit 4).2).sampleRate : ℚ)) = 1
    exact c_int_trunc_eq_intCast _ _ (by norm_num [CrossfadeEngine.engineInit])
  have hproc := process_audio_of_active _ hact 2
  have hsplit := crossfadeLoop_succ_advance 1
    ((((mkCrossfadeEngine.engineInit 4).2.start_crossfade "a" "b" (1 / 4)).2.queue_crossfade "b" "c" 1).2)
    (by rw [hpos, hdur]; omega)
  have hrun := crossfadeLoop_run 1
    ((((mkCrossfadeEngine.engineInit 4).2.start_crossfade "a" "b" (1 / 4)).2.queue_crossfade "b" "c" 1).2)
    (by omega) (by rw [hpos, hdur]; omega)
  have hguard : (crossfadeLoop 1 ((((mkCrossfadeEngine.engineInit 4).2.start_crossfade "a" "b" (1 / 4)).2.queue_crossfade "b" "c" 1).2)).crossfadeDurationSamples ≤
      (crossfadeLoop 1 ((((mkCrossfadeEngine.engineInit 4).2.start_crossfade "a" "b" (1 / 4)).2.queue_crossfade "b" "c" 1).2)).crossfadePosition := by
    rw [hrun.1, hrun.2.2.2, hpos, hdur]
    omega
  have hcomp := crossfadeLoop_complete _ hguard 1 (by omega)
  constructor
  · rw [hproc, hsplit]
    exact hcomp.1
  · rw [hproc, hsplit, hcomp.2.2.2, crossfadeLoop_queue]
    exact hq

/-! ## Fade-count and division-guard lemmas -/

theorem c_int_trunc_nonpos (q : ℚ) (h : q ≤ 0) : c_int_trunc q ≤ 0 := by
  unfold c_int_trunc
  split_ifs with h0
  · have hq0 : q = 0 := le_antisymm h h0
    simp [hq0]
  · exact Int.ceil_le.mpr (by exact_mod_cast h)

theorem cueFadeMix_fade_inv (channels s : ℕ) (c : AudioCue) (buf : AudioBuffer)
    (h : c.fadeSamplesRemaining ≤ c.fadeSamplesTotal) :
    (cueFadeMix channels s c buf).1.fadeSamplesRemaining ≤
      (cueFadeMix channels s c buf).1.fadeSamplesTotal := by
  simp only [cueFadeMix, cueMix]
  split_ifs <;> simp <;> omega

theorem cueLoopBody_fade_inv (channels s : ℕ) (c : AudioCue) (buf : AudioBuffer)
    (h : c.fadeSamplesRemaining ≤ c.fadeSamplesTotal) :
    (cueLoopBody channels s c buf).1.fadeSamplesRemaining ≤
      (cueLoopBody channels s c buf).1.fadeSamplesTotal := by
  unfold cueLoopBody
  split_ifs with h1 h2
  · exact cueFadeMix_fade_inv channels s _ buf h
  · simpa using h
  · exact cueFadeMix_fade_inv channels s c buf h

theorem cueLoop_fade_inv (channels n : ℕ) : ∀ (s : ℕ) (c : AudioCue) (buf : AudioBuffer),
    c.fadeSamplesRemaining ≤ c.fadeSamplesTotal →
    (cueLoop channels s n c buf).1.fadeSamplesRemaining ≤
      (cueLoop channels s n c buf).1.fadeSamplesTotal := by
  induction n with
  | zero => intro s c buf h; exact h
  | succ n ih =>
    intro s c buf h
    have hb := cueLoopBody_fade_inv channels s c buf h
    rcases hres : cueLoopBody channels s c buf with ⟨c', buf', brk⟩
    rw [hres] at hb
    cases brk
    · have hstep : cueLoop channels s (n + 1) c buf = cueLoop channels (s + 1) n c' buf' := by
        simp only [cueLoop, hres]
      rw [hstep]
      exact ih (s + 1) c' buf' hb
    · have hstep : cueLoop channels s (n + 1) c buf = (c', buf') := by
        simp only [cueLoop, hres]
      rw [hstep]
      exact hb

theorem process_audio_fade_inv (c : AudioCue) (numCh : ℕ) (buf : AudioBuffer)
    (n : ℕ) (h : c.fadeSamplesRemaining ≤ c.fadeSamplesTotal) :
    (c.process_audio numCh buf n).1.fadeSamplesRemaining ≤
      (c.process_audio numCh buf n).1.fadeSamplesTotal := by
  unfold AudioCue.process_audio
  split_ifs with h1
  · exact h
  · exact cueLoop_fade_inv _ n 0 c buf h

theorem process_audio_pos_nonneg (e : CrossfadeEngine) (n : ℕ)
    (h : 0 ≤ e.crossfadePosition) :
    0 ≤ (e.process_audio n).crossfadePosition := by
  cases hb : e.isCrossfading with
  | true =>
    rw [process_audio_of_active e hb n]
    exact crossfadeLoop_pos_nonneg n e h
  | false =>
    cases hq : e.crossfadeQueue with
    | nil =>
      rw [process_audio_of_idle e hb hq n]
      exact h
    | cons q qs =>
      rw [process_audio_of_queued e hb q qs hq n]
      have hz := (start_crossfade_fields { e with crossfadeQueue := qs }
        q.fromCueId q.toCueId q.durationSeconds).2.1
      rw [hz]

/-- A crossfade whose computed sample total is non-positive (duration ≤ 0)
is an instant switch: the next process_audio call deactivates it at its first
sample with the position still 0 — zero samples of transition. -/
theorem start_crossfade_nonpos_instant (e : CrossfadeEngine) (f t : String)
    (d : ℚ) (n : ℕ) (hd : d ≤ 0) (hsr : 0 ≤ e.sampleRate) (hn : 1 ≤ n) :
    ((e.start_crossfade f t d).2.process_audio n).isCrossfading = false ∧
    ((e.start_crossfade f t d).2.process_audio n).crossfadeProgress = 1 ∧
    ((e.start_crossfade f t d).2.process_audio n).crossfadePosition = 0 := by
  obtain ⟨hact, hpos, _, _, hdur, _⟩ := start_crossfade_fields e f t d
  have hsr' : (0 : ℚ) ≤ (e.sampleRate : ℚ) := by exact_mod_cast hsr
  have hT : c_int_trunc (d * e.sampleRate) ≤ 0 := by
    apply c_int_trunc_nonpos
    exact mul_nonpos_of_nonpos_of_nonneg hd hsr'
  have hguard : (e.start_crossfade f t d).2.crossfadeDurationSamples ≤
      (e.start_crossfade f t d).2.crossfadePosition := by
    rw [hpos, hdur]
    omega
  rw [process_audio_of_active _ hact n]
  have hcomp := crossfadeLoop_complete _ hguard n hn
  refine ⟨hcomp.1, hcomp.2.1, ?_⟩
  rw [hcomp.2.2.1, hpos]

/-- Claim C4 (amended): no minimum-one-sample floor exists — for every
duration d ≤ 0 the computed fade/crossfade sample count int(d·sr) is ≤ 0,
not 1; nevertheless no division by zero ever occurs, because every dividing
site is guarded: the cue's fade gain divides by fade_samples_total only when
fade_samples_remaining > 0, and remaining ≤ total (established by fade_in /
fade_out and preserved by process_audio) then forces the denominator
positive, while the crossfade divides by its total only when 0 ≤ position <
total; a zero-or-negative-duration crossfade behaves as an instant switch
that completes at the first sample of the next process_audio call with zero
(not one) samples of transition. -/
theorem fade_duration_no_floor_guarded :
    (∀ (c : AudioCue) (d : ℚ) (sr : ℤ), d ≤ 0 → 0 ≤ sr →
        (c.fade_in d sr).fadeSamplesTotal ≤ 0 ∧
        (c.fade_out d sr).fadeSamplesTotal ≤ 0) ∧
    (∀ (c : AudioCue) (d : ℚ) (sr : ℤ),
        (c.fade_in d sr).fadeSamplesRemaining = (c.fade_in d sr).fadeSamplesTotal ∧
        (c.fade_out d sr).fadeSamplesRemaining = (c.fade_out d sr).fadeSamplesTotal) ∧
    (∀ (c : AudioCue) (numCh : ℕ) (buf : AudioBuffer) (n : ℕ),
        c.fadeSamplesRemaining ≤ c.fadeSamplesTotal →
        (c.process_audio numCh buf n).1.fadeSamplesRemaining ≤
          (c.process_audio numCh buf n).1.fadeSamplesTotal) ∧
    (∀ c : AudioCue, c.fadeSamplesRemaining ≤ c.fadeSamplesTotal →
        0 < c.fadeSamplesRemaining → 0 < c.fadeSamplesTotal) ∧
    (∀ (e : CrossfadeEngine) (n : ℕ), 0 ≤ e.crossfadePosition →
        0 ≤ (e.process_audio n).crossfadePosition) ∧
    (∀ (e : CrossfadeEngine) (f t : String) (d : ℚ) (n : ℕ),
        d ≤ 0 → 0 ≤ e.sampleRate → 1 ≤ n →
        ((e.start_crossfade f t d).2.process_audio n).isCrossfading = false ∧
        ((e.start_crossfade f t d).2.process_audio n).crossfadeProgress = 1 ∧
        ((e.start_crossfade f t d).2.process_audio n).crossfadePosition = 0) := by
  refine ⟨?_, ?_, ?_, ?_, ?_, ?_⟩
  · intro c d sr hd hsr
    have hsr' : (0 : ℚ) ≤ (sr : ℚ) := by exact_mod_cast hsr
    have hmul : d * (sr : ℚ) ≤ 0 := mul_nonpos_of_nonpos_of_nonneg hd hsr'
    exact ⟨c_int_trunc_nonpos _ hmul, c_int_trunc_nonpos _ hmul⟩
  · intro c d sr
    exact ⟨rfl, rfl⟩
  · intro c numCh buf n h
    exact process_audio_fade_inv c numCh buf n h
  · intro c h hpos
    omega
  · intro e n h
    exact process_audio_pos_nonneg e n h
  · intro e f t d n hd hsr hn
    exact start_crossfade_nonpos_instant e f t d n hd hsr hn

/-- Claim C4 witness: the amended statement at concrete inputs (duration -1
fade, a cue mid-fade with remaining 1 of total 2, and a duration-0 crossfade
at sample rate 4 processed for one sample). -/
theorem fade_duration_no_floor_guarded_witness :
    (((mkAudioCue "a" "f").fade_in (-1) 48000).fadeSamplesTotal ≤ 0 ∧
      ((mkAudioCue "a" "f").fade_out (-1) 48000).fadeSamplesTotal ≤ 0) ∧
    (((mkAudioCue "a" "f").process_audio 2 zeroBuffer 3).1.fadeSamplesRemaining ≤
      ((mkAudioCue "a" "f").process_audio 2 zeroBuffer 3).1.fadeSamplesTotal) ∧
    (0 < AudioCue.fadeSamplesTotal
      { mkAudioCue "a" "f" with fadeSamplesRemaining := 1, fadeSamplesTotal := 2 }) ∧
    (0 ≤ (mkCrossfadeEngine.process_audio 5).crossfadePosition) ∧
    ((((mkCrossfadeEngine.engineInit 4).2.start_crossfade "a" "b" 0).2.process_audio 1).isCrossfading = false ∧
      (((mkCrossfadeEngine.engineInit 4).2.start_crossfade "a" "b" 0).2.process_audio 1).crossfadeProgress = 1 ∧
      (((mkCrossfadeEngine.engineInit 4).2.start_crossfade "a" "b" 0).2.process_audio 1).crossfadePosition = 0) :=
  ⟨fade_duration_no_floor_guarded.1 (mkAudioCue "a" "f") (-1) 48000
      (by norm_num) (by norm_num),
   fade_duration_no_floor_guarded.2.2.1 (mkAudioCue "a" "f") 2 zeroBuffer 3
      (le_refl 0),
   fade_duration_no_floor_guarded.2.2.2.1
      { mkAudioCue "a" "f" with fadeSamplesRemaining := 1, fadeSamplesTotal := 2 }
      (by norm_num) (by norm_num),
   fade_duration_no_floor_guarded.2.2.2.2.1 mkCrossfadeEngine 5 (le_refl 0),
   fade_duration_no_floor_guarded.2.2.2.2.2 (mkCrossfadeEngine.engineInit 4).2
      "a" "b" 0 1 (le_refl 0) (by norm_num [CrossfadeEngine.engineInit]) (le_refl 1)⟩

/-- Claim C4 counterexample: fade_in with duration 0 at 48 kHz computes
fade_samples_total = 0 — there is no minimum-one-sample floor — and a
zero-duration crossfade completes at the next process_audio call with the
position still 0, i.e. zero samples of transition rather than the claimed
one. -/
theorem fade_min_one_sample_claim_false :
    ((mkAudioCue "a" "f").fade_in 0 48000).fadeSamplesTotal = 0 ∧
    (((mkCrossfadeEngine.engineInit 48000).2.start_crossfade "a" "b" 0).2.process_audio 1).isCrossfading = false ∧
    (((mkCrossfadeEngine.engineInit 48000).2.start_crossfade "a" "b" 0).2.process_audio 1).crossfadePosition = 0 := by
  have hinstant := start_crossfade_nonpos_instant (mkCrossfadeEngine.engineInit 48000).2
    "a" "b" 0 1 (le_refl 0) (by norm_num [CrossfadeEngine.engineInit]) (le_refl 1)
  refine ⟨?_, hinstant.1, hinstant.2.2⟩
  show c_int_trunc (0 * ((48000 : ℤ) : ℚ)) = 0
  exact c_int_trunc_eq_intCast _ _ (by norm_num)

/-! ## Fade completion lemmas -/

/-- One fade-handling iteration of a fading-out-to-zero cue: with one sample
remaining it stops and breaks (before mixing); with more remaining it
continues with the counter decremented and the fade state intact. -/
theorem cueFadeMix_fadeOut (channels s : ℕ) (c : AudioCue) (buf : AudioBuffer)
    (hst : c.state = CueState.FADING_OUT) (htg : c.targetVolume = 0)
    (hrem : 1 ≤ c.fadeSamplesRemaining) :
    (c.fadeSamplesRemaining = 1 ∧
      (cueFadeMix channels s c buf).1.state = CueState.STOPPED ∧
      (cueFadeMix channels s c buf).2.2 = true) ∨
    (2 ≤ c.fadeSamplesRemaining ∧
      (cueFadeMix channels s c buf).2.2 = false ∧
      (cueFadeMix channels s c buf).1.state = CueState.FADING_OUT ∧
      (cueFadeMix channels s c buf).1.targetVolume = 0 ∧
      (cueFadeMix channels s c buf).1.fadeSamplesRemaining =
        c.fadeSamplesRemaining - 1) := by
  simp only [cueFadeMix, cueMix]
  rw [if_pos (by omega : 0 < c.fadeSamplesRemaining)]
  by_cases h1 : c.fadeSamplesRemaining - 1 = 0
  · left
    rw [if_pos h1, if_pos ⟨hst, htg⟩]
    exact ⟨by omega, rfl, rfl⟩
  · right
    rw [if_neg h1]
    exact ⟨by omega, rfl, hst, htg, rfl⟩

/-- One full loop iteration of a fading-out-to-zero cue: it either breaks
with the cue STOPPED (fade complete, or end of data on a non-looping cue) or
continues with the counter decremented. -/
theorem cueLoopBody_fadeOut (channels s : ℕ) (c : AudioCue) (buf : AudioBuffer)
    (hst : c.state = CueState.FADING_OUT) (htg : c.targetVolume = 0)
    (hrem : 1 ≤ c.fadeSamplesRemaining) :
    ((cueLoopBody channels s c buf).1.state = CueState.STOPPED ∧
      (cueLoopBody channels s c buf).2.2 = true) ∨
    ((cueLoopBody channels s c buf).2.2 = false ∧
      (cueLoopBody channels s c buf).1.state = CueState.FADING_OUT ∧
      (cueLoopBody channels s c buf).1.targetVolume = 0 ∧
      (cueLoopBody channels s c buf).1.fadeSamplesRemaining =
        c.fadeSamplesRemaining - 1 ∧
      2 ≤ c.fadeSamplesRemaining) := by
  unfold cueLoopBody
  split_ifs with h1 h2
  · rcases cueFadeMix_fadeOut channels s { c with currentPosition := 0 } buf
        hst htg hrem with ⟨_, ha, hb⟩ | ⟨ha, hb, hc, hd, he⟩
    · exact Or.inl ⟨ha, hb⟩
    · exact Or.inr ⟨hb, hc, hd, he, ha⟩
  · exact Or.inl ⟨rfl, rfl⟩
  · rcases cueFadeMix_fadeOut channels s c buf hst htg hrem with
      ⟨_, ha, hb⟩ | ⟨ha, hb, hc, hd, he⟩
    · exact Or.inl ⟨ha, hb⟩
    · exact Or.inr ⟨hb, hc, hd, he, ha⟩

/-- Rendering exactly as many samples as the fade-out has remaining leaves
the cue STOPPED. -/
theorem cueLoop_fadeOut (channels : ℕ) : ∀ (fuel s : ℕ) (c : AudioCue)
    (buf : AudioBuffer),
    c.state = CueState.FADING_OUT → c.targetVolume = 0 →
    c.fadeSamplesRemaining = (fuel : ℤ) → 1 ≤ fuel →
    (cueLoop channels s fuel c buf).1.state = CueState.STOPPED := by
  intro fuel
  induction fuel with
  | zero => intro s c buf _ _ _ hf; omega
  | succ n ih =>
    intro s c buf hst htg hrem _
    have hbody := cueLoopBody_fadeOut channels s c buf hst htg (by omega)
    rcases hres : cueLoopBody channels s c buf with ⟨c', buf', brk⟩
    rw [hres] at hbody
    cases brk
    · rcases hbody with ⟨_, habs⟩ | ⟨_, hst', htg', hrem', hge2⟩
      · exact absurd habs (by simp)
      · have hstep : cueLoop channels s (n + 1) c buf =
            cueLoop channels (s + 1) n c' buf' := by
          simp only [cueLoop, hres]
        rw [hstep]
        exact ih (s + 1) c' buf' hst' htg' (by rw [hrem', hrem]; push_cast; ring)
          (by omega)
    · rcases hbody with ⟨hstop, _⟩ | ⟨habs, _⟩
      · have hstep : cueLoop channels s (n + 1) c buf = (c', buf') := by
          simp only [cueLoop, hres]
        rw [hstep]
        exact hstop
      · exact absurd habs (by simp)

/-- One fade-handling iteration of a fading-in cue never breaks: with one
sample remaining it completes (state PLAYING, volume snapped to the target);
with more remaining it continues with the counter decremented. The cursor
advances by one (or the cue is looping), and the fade target, data length
and loop flag are untouched. -/
theorem cueFadeMix_fadeIn (channels s : ℕ) (c : AudioCue) (buf : AudioBuffer)
    (hst : c.state = CueState.FADING_IN)
    (hrem : 1 ≤ c.fadeSamplesRemaining) :
    (cueFadeMix channels s c buf).2.2 = false ∧
    (cueFadeMix channels s c buf).1.targetVolume = c.targetVolume ∧
    (cueFadeMix channels s c buf).1.durationSamples = c.durationSamples ∧
    (cueFadeMix channels s c buf).1.isLooping = c.isLooping ∧
    (cueFadeMix channels s c buf).1.currentPosition = c.currentPosition + 1 ∧
    ((c.fadeSamplesRemaining = 1 ∧
        (cueFadeMix channels s c buf).1.state = CueState.PLAYING ∧
        (cueFadeMix channels s c buf).1.volume = c.targetVolume) ∨
      (2 ≤ c.fadeSamplesRemaining ∧
        (cueFadeMix channels s c buf).1.state = CueState.FADING_IN ∧
        (cueFadeMix channels s c buf).1.fadeSamplesRemaining =
          c.fadeSamplesRemaining - 1)) := by
  simp only [cueFadeMix, cueMix]
  rw [if_pos (by omega : 0 < c.fadeSamplesRemaining)]
  by_cases h1 : c.fadeSamplesRemaining - 1 = 0
  · rw [if_pos h1, if_neg (by simp [hst])]
    exact ⟨rfl, rfl, rfl, rfl, rfl, Or.inl ⟨by omega, rfl, rfl⟩⟩
  · rw [if_neg h1]
    exact ⟨rfl, rfl, rfl, rfl, rfl, Or.inr ⟨by omega, hst, rfl⟩⟩

/-- One full loop iteration of a fading-in cue with data remaining (or a
looping cue): never breaks; completes or decrements as in the fade step. -/
theorem cueLoopBody_fadeIn (channels s : ℕ) (c : AudioCue) (buf : AudioBuffer)
    (hst : c.state = CueState.FADING_IN)
    (hrem : 1 ≤ c.fadeSamplesRemaining)
    (hdata : c.currentPosition < c.durationSamples ∨ c.isLooping = true) :
    (cueLoopBody channels s c buf).2.2 = false ∧
    (cueLoopBody channels s c buf).1.targetVolume = c.targetVolume ∧
    (cueLoopBody channels s c buf).1.durationSamples = c.durationSamples ∧
    (cueLoopBody channels s c buf).1.isLooping = c.isLooping ∧
    ((cueLoopBody channels s c buf).1.currentPosition = c.currentPosition + 1 ∨
      c.isLooping = true) ∧
    ((c.fadeSamplesRemaining = 1 ∧
        (cueLoopBody channels s c buf).1.state = CueState.PLAYING ∧
        (cueLoopBody channels s c buf).1.volume = c.targetVolume) ∨
      (2 ≤ c.fadeSamplesRemaining ∧
        (cueLoopBody channels s c buf).1.state = CueState.FADING_IN ∧
        (cueLoopBody channels s c buf).1.fadeSamplesRemaining =
          c.fadeSamplesRemaining - 1)) := by
  unfold cueLoopBody
  split_ifs with h1 h2
  · obtain ⟨ha, hb, hc, hd, _, hf⟩ := cueFadeMix_fadeIn channels s
      { c with currentPosition := 0 } buf hst hrem
    exact ⟨ha, hb, hc, hd, Or.inr h2, hf⟩
  · rcases hdata with hlt | hloop
    · omega
    · exact absurd hloop (by simpa using h2)
  · obtain ⟨ha, hb, hc, hd, he, hf⟩ := cueFadeMix_fadeIn channels s c buf hst hrem
    exact ⟨ha, hb, hc, hd, Or.inl he, hf⟩

/-- Rendering exactly as many samples as the fade-in has remaining leaves
the cue PLAYING with its volume equal to the fade target. -/
theorem cueLoop_fadeIn (channels : ℕ) : ∀ (fuel s : ℕ) (c : AudioCue)
    (buf : AudioBuffer),
    c.state = CueState.FADING_IN →
    c.fadeSamplesRemaining = (fuel : ℤ) → 1 ≤ fuel →
    (c.currentPosition + fuel ≤ c.durationSamples ∨ c.isLooping = true) →
    (cueLoop channels s fuel c buf).1.state = CueState.PLAYING ∧
    (cueLoop channels s fuel c buf).1.volume = c.targetVolume := by
  intro fuel
  induction fuel with
  | zero => intro s c buf _ _ hf _; omega
  | succ n ih =>
    intro s c buf hst hrem _ hdata
    have hdata1 : c.currentPosition < c.durationSamples ∨ c.isLooping = true := by
      rcases hdata with h | h
      · left; omega
      · right; exact h
    have hbody := cueLoopBody_fadeIn channels s c buf hst (by omega) hdata1
    rcases hres : cueLoopBody channels s c buf with ⟨c', buf', brk⟩
    rw [hres] at hbody
    obtain ⟨hbrk, htg', hdur', hloop', hposd, hcase⟩ := hbody
    cases brk
    · rcases hcase with ⟨h1, hplay, hvol⟩ | ⟨h2, hst', hrem'⟩
      · have hn0 : n = 0 := by omega
        subst hn0
        have hstep : cueLoop channels s (0 + 1) c buf = (c', buf') := by
          simp only [cueLoop, hres]
        rw [hstep]
        exact ⟨hplay, hvol⟩
      · have hstep : cueLoop channels s (n + 1) c buf =
            cueLoop channels (s + 1) n c' buf' := by
          simp only [cueLoop, hres]
        rw [hstep]
        have hres2 := ih (s + 1) c' buf' hst'
          (by rw [hrem', hrem]; push_cast; ring) (by omega)
          (by
            rcases hposd with hpos1 | hloopc
            · rcases hdata with hd | hd
              · left
                rw [hpos1, hdur']
                omega
              · right
                rw [hloop']
                exact hd
            · right
              rw [hloop']
              exact hloopc)
        rw [hres2.1, hres2.2, htg']
        exact ⟨rfl, rfl⟩
    · exact absurd hbrk (by simp)

theorem process_audio_of_live (c : AudioCue)
    (h1 : ¬ (c.state = CueState.STOPPED ∨ c.numChannels = 0))
    (numCh : ℕ) (buf : AudioBuffer) (n : ℕ) :
    c.process_audio numCh buf n =
      cueLoop (min numCh c.numChannels) 0 n c buf := by
  unfold AudioCue.process_audio
  rw [if_neg h1]

/-- Claim C3: for a playing cue with loaded audio data, fade_out(d) followed
by rendering exactly T = int(d·sr) ≥ 1 samples leaves the cue STOPPED, and a
STOPPED cue contributes nothing to any buffer; fade_in(d) followed by
rendering the same span (with enough data remaining, or looping) leaves the
cue PLAYING with its volume equal to the pre-fade volume v. -/
theorem fade_completion :
    (∀ (c : AudioCue) (d : ℚ) (sr : ℤ) (T numCh : ℕ) (buf : AudioBuffer),
        c.state = CueState.PLAYING → c.numChannels ≠ 0 →
        c_int_trunc (d * sr) = (T : ℤ) → 1 ≤ T →
        ((c.fade_out d sr).process_audio numCh buf T).1.state =
          CueState.STOPPED) ∧
    (∀ (c : AudioCue) (numCh : ℕ) (buf : AudioBuffer) (n : ℕ),
        c.state = CueState.STOPPED → c.process_audio numCh buf n = (c, buf)) ∧
    (∀ (c : AudioCue) (d : ℚ) (sr : ℤ) (T numCh : ℕ) (buf : AudioBuffer),
        c.state = CueState.PLAYING → c.numChannels ≠ 0 →
        c_int_trunc (d * sr) = (T : ℤ) → 1 ≤ T →
        (c.currentPosition + T ≤ c.durationSamples ∨ c.isLooping = true) →
        ((c.fade_in d sr).process_audio numCh buf T).1.state =
          CueState.PLAYING ∧
        ((c.fade_in d sr).process_audio numCh buf T).1.volume = c.volume) := by
  refine ⟨?_, ?_, ?_⟩
  · intro c d sr T numCh buf _ hch hT hT1
    have hlive : ¬ ((c.fade_out d sr).state = CueState.STOPPED ∨
        (c.fade_out d sr).numChannels = 0) := by
      push_neg
      exact ⟨by simp [AudioCue.fade_out], hch⟩
    rw [process_audio_of_live _ hlive numCh buf T]
    exact cueLoop_fadeOut _ T 0 (c.fade_out d sr) buf rfl rfl
      (by show c_int_trunc (d * sr) = (T : ℤ); exact hT) hT1
  · intro c numCh buf n h
    unfold AudioCue.process_audio
    rw [if_pos (Or.inl h)]
  · intro c d sr T numCh buf _ hch hT hT1 hdata
    have hlive : ¬ ((c.fade_in d sr).state = CueState.STOPPED ∨
        (c.fade_in d sr).numChannels = 0) := by
      push_neg
      exact ⟨by simp [AudioCue.fade_in], hch⟩
    rw [process_audio_of_live _ hlive numCh buf T]
    have hres := cueLoop_fadeIn (min numCh (c.fade_in d sr).numChannels) T 0
      (c.fade_in d sr) buf rfl
      (by show c_int_trunc (d * sr) = (T : ℤ); exact hT) hT1
      (by exact hdata)
    exact ⟨hres.1, hres.2⟩

/-- Claim C3 witness: a playing cue (volume 1/2, 100 samples of data,
2 channels) at sample rate 4 with 1-second fades (4 samples). -/
theorem fade_completion_witness :
    ((AudioCue.fade_out
        { mkAudioCue "c" "f" with
          state := CueState.PLAYING
          numChannels := 2
          durationSamples := 100
          volume := 1 / 2
          audioData := fun _ _ => 1 / 4 } 1 4).process_audio 2 zeroBuffer 4).1.state =
      CueState.STOPPED ∧
    (AudioCue.process_audio
        { mkAudioCue "s" "f" with state := CueState.STOPPED } 2 zeroBuffer 7 =
      ({ mkAudioCue "s" "f" with state := CueState.STOPPED }, zeroBuffer)) ∧
    ((AudioCue.fade_in
        { mkAudioCue "c" "f" with
          state := CueState.PLAYING
          numChannels := 2
          durationSamples := 100
          volume := 1 / 2
          audioData := fun _ _ => 1 / 4 } 1 4).process_audio 2 zeroBuffer 4).1.state =
      CueState.PLAYING ∧
    ((AudioCue.fade_in
        { mkAudioCue "c" "f" with
          state := CueState.PLAYING
          numChannels := 2
          durationSamples := 100
          volume := 1 / 2
          audioData := fun _ _ => 1 / 4 } 1 4).process_audio 2 zeroBuffer 4).1.volume =
      AudioCue.volume
        { mkAudioCue "c" "f" with
          state := CueState.PLAYING
          numChannels := 2
          durationSamples := 100
          volume := 1 / 2
          audioData := fun _ _ => 1 / 4 } :=
  ⟨fade_completion.1 _ 1 4 4 2 zeroBuffer rfl (by decide)
      (c_int_trunc_eq_intCast _ _ (by norm_num)) (by omega),
   fade_completion.2.1 _ 2 zeroBuffer 7 rfl,
   (fade_completion.2.2 _ 1 4 4 2 zeroBuffer rfl (by decide)
      (c_int_trunc_eq_intCast _ _ (by norm_num)) (by omega)
      (Or.inl (by decide))).1,
   (fade_completion.2.2 _ 1 4 4 2 zeroBuffer rfl (by decide)
      (c_int_trunc_eq_intCast _ _ (by norm_num)) (by omega)
      (Or.inl (by decide))).2⟩

/-! ## Additive-mix lemmas

One loop iteration's cue state and break flag are independent of the output
buffer, and its buffer effect is the pointwise addition of a contribution
that depends only on the cue state — from which additivity of the whole mix
follows. -/

theorem cueMix_cue_indep (channels s : ℕ) (c : AudioCue) (cv : ℚ)
    (buf : AudioBuffer) :
    (cueMix channels s c cv buf).1 = (cueMix channels s c cv zeroBuffer).1 := rfl

theorem cueMix_brk_indep (channels s : ℕ) (c : AudioCue) (cv : ℚ)
    (buf : AudioBuffer) :
    (cueMix channels s c cv buf).2.2 =
      (cueMix channels s c cv zeroBuffer).2.2 := rfl

theorem cueMix_buf_split (channels s : ℕ) (c : AudioCue) (cv : ℚ)
    (buf : AudioBuffer) (a i : ℕ) :
    (cueMix channels s c cv buf).2.1 a i =
      buf a i + (cueMix channels s c cv zeroBuffer).2.1 a i := by
  simp only [cueMix, zeroBuffer]
  by_cases hc : a < channels ∧ i = s <;> simp [hc]

theorem cueFadeMix_cue_indep (channels s : ℕ) (c : AudioCue)
    (buf : AudioBuffer) :
    (cueFadeMix channels s c buf).1 = (cueFadeMix channels s c zeroBuffer).1 := by
  simp only [cueFadeMix]
  split_ifs <;> rfl

theorem cueFadeMix_brk_indep (channels s : ℕ) (c : AudioCue)
    (buf : AudioBuffer) :
    (cueFadeMix channels s c buf).2.2 =
      (cueFadeMix channels s c zeroBuffer).2.2 := by
  simp only [cueFadeMix]
  split_ifs <;> rfl

theorem cueFadeMix_buf_split (channels s : ℕ) (c : AudioCue)
    (buf : AudioBuffer) (a i : ℕ) :
    (cueFadeMix channels s c buf).2.1 a i =
      buf a i + (cueFadeMix channels s c zeroBuffer).2.1 a i := by
  simp only [cueFadeMix]
  split_ifs <;>
    first
      | exact cueMix_buf_split channels s _ _ buf a i
      | simp [zeroBuffer]

theorem cueLoopBody_cue_indep (channels s : ℕ) (c : AudioCue)
    (buf : AudioBuffer) :
    (cueLoopBody channels s c buf).1 = (cueLoopBody channels s c zeroBuffer).1 := by
  simp only [cueLoopBody]
  split_ifs
  · exact cueFadeMix_cue_indep channels s _ buf
  · rfl
  · exact cueFadeMix_cue_indep channels s c buf

theorem cueLoopBody_brk_indep (channels s : ℕ) (c : AudioCue)
    (buf : AudioBuffer) :
    (cueLoopBody channels s c buf).2.2 =
      (cueLoopBody channels s c zeroBuffer).2.2 := by
  simp only [cueLoopBody]
  split_ifs
  · exact cueFadeMix_brk_indep channels s _ buf
  · rfl
  · exact cueFadeMix_brk_indep channels s c buf

theorem cueLoopBody_buf_split (channels s : ℕ) (c : AudioCue)
    (buf : AudioBuffer) (a i : ℕ) :
    (cueLoopBody channels s c buf).2.1 a i =
      buf a i + (cueLoopBody channels s c zeroBuffer).2.1 a i := by
  simp only [cueLoopBody]
  split_ifs
  · exact cueFadeMix_buf_split channels s _ buf a i
  · simp [zeroBuffer]
  · exact cueFadeMix_buf_split channels s c buf a i

theorem cueLoop_cue_indep (channels : ℕ) : ∀ (n s : ℕ) (c : AudioCue)
    (buf : AudioBuffer),
    (cueLoop channels s n c buf).1 = (cueLoop channels s n c zeroBuffer).1 := by
  intro n
  induction n with
  | zero => intro s c buf; rfl
  | succ n ih =>
    intro s c buf
    rcases hres0 : cueLoopBody channels s c zeroBuffer with ⟨c1, δbuf, brk⟩
    rcases hres : cueLoopBody channels s c buf with ⟨c1', buf', brk'⟩
    have hc1 : c1' = c1 := by
      have h := cueLoopBody_cue_indep channels s c buf
      rw [hres, hres0] at h
      exact h
    have hbrk : brk' = brk := by
      have h := cueLoopBody_brk_indep channels s c buf
      rw [hres, hres0] at h
      exact h
    subst hc1
    subst hbrk
    cases brk'
    · have hL : cueLoop channels s (n + 1) c buf =
          cueLoop channels (s + 1) n c1' buf' := by
        simp only [cueLoop, hres]
      have hR : cueLoop channels s (n + 1) c zeroBuffer =
          cueLoop channels (s + 1) n c1' δbuf := by
        simp only [cueLoop, hres0]
      rw [hL, hR, ih (s + 1) c1' buf', ih (s + 1) c1' δbuf]
    · have hL : cueLoop channels s (n + 1) c buf = (c1', buf') := by
        simp only [cueLoop, hres]
      have hR : cueLoop channels s (n + 1) c zeroBuffer = (c1', δbuf) := by
        simp only [cueLoop, hres0]
      rw [hL, hR]

theorem cueLoop_buf_split (channels : ℕ) : ∀ (n s : ℕ) (c : AudioCue)
    (buf : AudioBuffer) (a i : ℕ),
    (cueLoop channels s n c buf).2 a i =
      buf a i + (cueLoop channels s n c zeroBuffer).2 a i := by
  intro n
  induction n with
  | zero =>
    intro s c buf a i
    show buf a i = buf a i + zeroBuffer a i
    simp [zeroBuffer]
  | succ n ih =>
    intro s c buf a i
    rcases hres0 : cueLoopBody channels s c zeroBuffer with ⟨c1, δbuf, brk⟩
    rcases hres : cueLoopBody channels s c buf with ⟨c1', buf', brk'⟩
    have hc1 : c1' = c1 := by
      have h := cueLoopBody_cue_indep channels s c buf
      rw [hres, hres0] at h
      exact h
    have hbrk : brk' = brk := by
      have h := cueLoopBody_brk_indep channels s c buf
      rw [hres, hres0] at h
      exact h
    have hbuf : ∀ a' i', buf' a' i' = buf a' i' + δbuf a' i' := by
      intro a' i'
      have h := cueLoopBody_buf_split channels s c buf a' i'
      rw [hres, hres0] at h
      exact h
    subst hc1
    subst hbrk
    cases brk'
    · have hL : cueLoop channels s (n + 1) c buf =
          cueLoop channels (s + 1) n c1' buf' := by
        simp only [cueLoop, hres]
      have hR : cueLoop channels s (n + 1) c zeroBuffer =
          cueLoop channels (s + 1) n c1' δbuf := by
        simp only [cueLoop, hres0]
      rw [hL, hR, ih (s + 1) c1' buf' a i, ih (s + 1) c1' δbuf a i, hbuf a i]
      ring
    · have hL : cueLoop channels s (n + 1) c buf = (c1', buf') := by
        simp only [cueLoop, hres]
      have hR : cueLoop channels s (n + 1) c zeroBuffer = (c1', δbuf) := by
        simp only [cueLoop, hres0]
      rw [hL, hR]
      exact hbuf a i

theorem process_audio_cue_indep (c : AudioCue) (numCh : ℕ) (buf : AudioBuffer)
    (n : ℕ) :
    (c.process_audio numCh buf n).1 = (c.process_audio numCh zeroBuffer n).1 := by
  unfold AudioCue.process_audio
  split_ifs with h
  · rfl
  · exact cueLoop_cue_indep _ n 0 c buf

theorem process_audio_buf_split (c : AudioCue) (numCh : ℕ) (buf : AudioBuffer)
    (n : ℕ) (a i : ℕ) :
    (c.process_audio numCh buf n).2 a i =
      buf a i + (c.process_audio numCh zeroBuffer n).2 a i := by
  unfold AudioCue.process_audio
  split_ifs with h
  · show buf a i = buf a i + zeroBuffer a i
    simp [zeroBuffer]
  · exact cueLoop_buf_split _ n 0 c buf a i

theorem processCues_buf_split (numCh n : ℕ) : ∀ (cs : List AudioCue)
    (buf : AudioBuffer) (a i : ℕ),
    (processCues numCh n cs buf).2 a i =
      buf a i +
        (cs.map (fun c => (c.process_audio numCh zeroBuffer n).2 a i)).sum := by
  intro cs
  induction cs with
  | nil =>
    intro buf a i
    simp [processCues]
  | cons c cs ih =>
    intro buf a i
    show (processCues numCh n cs (c.process_audio numCh buf n).2).2 a i = _
    rw [ih (c.process_audio numCh buf n).2 a i,
      process_audio_buf_split c numCh buf n a i]
    simp only [List.map_cons, List.sum_cons]
    ring

/-- Claim C1: one CueAudioManager::process_audio call zero-fills the output,
lets every cue add its own contribution, then multiplies by the master
volume; hence each output sample in range equals the master volume times the
exact sum, over all cues, of what that cue alone would have rendered into a
zeroed buffer from the same state — for all cue lists, buffer contents and
buffer sizes — and the output is invariant under any permutation of the cue
iteration order. -/
theorem cue_mix_additivity :
    ∀ (m : CueAudioManager) (numCh n : ℕ) (buf : AudioBuffer) (ch i : ℕ),
      ch < numCh → i < n →
      ((m.process_audio numCh buf n).2 ch i =
        m.masterVolume *
          (m.cues.map
            (fun c => (c.process_audio numCh zeroBuffer n).2 ch i)).sum) ∧
      (∀ cues2 : List AudioCue, m.cues.Perm cues2 →
        (m.process_audio numCh buf n).2 ch i =
          (CueAudioManager.process_audio { m with cues := cues2 }
            numCh buf n).2 ch i) := by
  have key : ∀ (m : CueAudioManager) (numCh n : ℕ) (buf : AudioBuffer)
      (ch i : ℕ), ch < numCh → i < n →
      (m.process_audio numCh buf n).2 ch i =
        m.masterVolume *
          (m.cues.map
            (fun c => (c.process_audio numCh zeroBuffer n).2 ch i)).sum := by
    intro m numCh n buf ch i hch hi
    unfold CueAudioManager.process_audio
    simp only []
    rw [if_pos ⟨hch, hi⟩,
      processCues_buf_split numCh n m.cues _ ch i,
      if_pos ⟨hch, hi⟩]
    ring
  intro m numCh n buf ch i hch hi
  refine ⟨key m numCh n buf ch i hch hi, ?_⟩
  intro cues2 hperm
  rw [key m numCh n buf ch i hch hi,
    key { m with cues := cues2 } numCh n buf ch i hch hi]
  have hsum := (hperm.map
    (fun c => (c.process_audio numCh zeroBuffer n).2 ch i)).sum_eq
  rw [hsum]

/-- Claim C1 witness: a two-cue manager rendered over 2 channels and 4
samples, checked at channel 0, sample 0. -/
theorem cue_mix_additivity_witness :
    (mixFixtureManager.process_audio 2 zeroBuffer 4).2 0 0 =
      mixFixtureManager.masterVolume *
        (mixFixtureManager.cues.map
          (fun c => (c.process_audio 2 zeroBuffer 4).2 0 0)).sum :=
  (cue_mix_additivity mixFixtureManager 2 4 zeroBuffer 0 0
    (by omega) (by omega)).1

end SharedAudio
